import Mathlib

/-!
# Square matrix multiplication benchmarks

Shallow embedding of the two C programs
`multi_matri_cuadradas.c` (signed `int` cells) and
`multi_matri_cuadradas_rango_1036_sinsigno.c` (`uint32_t` cells, `uint64_t`
accumulator).

Conventions.
* A matrix reached through row pointers (`A[i][j]`) is a function of the row
  and the column index.
* A counted loop `for (x = 0; x < n; x++) body` is `forUpTo n body`; when the
  body can hit undefined behaviour the loop is `forUpToM n body` and the
  whole computation is `none` as soon as one step is.
* Unsigned machine arithmetic is arithmetic on `Nat` reduced modulo `2^w`;
  signed `int` arithmetic is arithmetic on `Int` that is defined only when
  the mathematical result lies in `[INT_MIN, INT_MAX]`.
* Platform constants are those of an LP64 target: 32-bit `int`, 64-bit
  `long` and `unsigned long`.
-/

namespace MatMul

/-! ## Loops and matrices -/

/-- Counted loop `for (x = 0; x < n; x++) s = body x s`. -/
def forUpTo {σ : Type} : Nat → (Nat → σ → σ) → σ → σ
  | 0, _, s => s
  | n + 1, body, s => body n (forUpTo n body s)

/-- Counted loop whose body may be undefined (`none`). -/
def forUpToM {σ : Type} : Nat → (Nat → σ → Option σ) → σ → Option σ
  | 0, _, s => some s
  | n + 1, body, s => (forUpToM n body s).bind (body n)

/-- Matrix with cells of type `α`, indexed `M i j` for `M[i][j]`. -/
abbrev Mat (α : Type) := Nat → Nat → α

/-- Assignment `M[i][j] = v`. -/
def setCell {α : Type} (M : Mat α) (i j : Nat) (v : α) : Mat α :=
  fun a b => if a = i ∧ b = j then v else M a b

/-! ## Unsigned program: multiply kernel -/

/-- Number of values of `uint32_t`. -/
def U32 : Nat := 4294967296

/-- Number of values of `uint64_t`. -/
def U64 : Nat := 18446744073709551616

/-- Conversion `(uint64_t)x`. -/
def toU64 (x : Nat) : Nat := x % U64

/-- Conversion `(uint32_t)x` of an unsigned value. -/
def narrowU32 (x : Nat) : Nat := x % U32

/-- One step `sum += (uint64_t)A[i][k] * (uint64_t)B[k][j]` in `uint64_t`. -/
def accStep (A B : Mat Nat) (i j k sum : Nat) : Nat :=
  (sum + (toU64 (A i k) * toU64 (B k j)) % U64) % U64

/-- Value of `sum` after the first `m` iterations of the `k` loop, starting
from `uint64_t sum = 0ULL`. -/
def dotAcc (A B : Mat Nat) (i j m : Nat) : Nat :=
  forUpTo m (fun k sum => accStep A B i j k sum) 0

/-- Body of the `j` loop: accumulate over `k`, then `C[i][j] = (uint32_t)sum`. -/
def cellU (n : Nat) (A B : Mat Nat) (i j : Nat) (C : Mat Nat) : Mat Nat :=
  setCell C i j (narrowU32 (dotAcc A B i j n))

/-- Multiply kernel of the unsigned program (loops `i`, `j`, `k`). -/
def kernelU (n : Nat) (A B C : Mat Nat) : Mat Nat :=
  forUpTo n (fun i C => forUpTo n (fun j C => cellU n A B i j C) C) C

/-- One step of a kernel that keeps the accumulator in `uint32_t`:
`sum32 += A[i][k] * B[k][j]` with wrapping product and sum. -/
def accStep32 (A B : Mat Nat) (i j k sum : Nat) : Nat :=
  (sum + (A i k * B k j) % U32) % U32

/-- Accumulator of the 32-bit kernel after `m` iterations of the `k` loop. -/
def dotAcc32 (A B : Mat Nat) (i j m : Nat) : Nat :=
  forUpTo m (fun k sum => accStep32 A B i j k sum) 0

/-- Kernel that accumulates directly in a wrapping 32-bit accumulator. -/
def kernelU32 (n : Nat) (A B C : Mat Nat) : Mat Nat :=
  forUpTo n (fun i C => forUpTo n (fun j C => setCell C i j (dotAcc32 A B i j n)) C) C

/-- Exact dot product of row `i` of `A` and column `j` of `B` over the first
`m` indices. -/
def dot (A B : Mat Nat) (i j m : Nat) : Nat :=
  ∑ k in Finset.range m, A i k * B k j

/-- Entries bounded by `1036` on the first `n` rows and columns. -/
def Bounded1036 (n : Nat) (M : Mat Nat) : Prop :=
  ∀ i j, i < n → j < n → M i j ≤ 1036

/-! ## Signed program: multiply kernel -/

/-- Largest value of `int`. -/
def INT_MAX : Int := 2147483647

/-- Smallest value of `int`. -/
def INT_MIN : Int := -2147483648

/-- Result of an `int` operation whose mathematical value is `x`: defined
only when `x` is representable (signed overflow is undefined behaviour). -/
def intOk (x : Int) : Option Int :=
  if INT_MIN ≤ x ∧ x ≤ INT_MAX then some x else none

/-- Statement `C[i][j] += A[i][k] * B[k][j]` on `int` cells. -/
def stepS (A B : Mat Int) (i j k : Nat) (C : Mat Int) : Option (Mat Int) :=
  (intOk (A i k * B k j)).bind fun p =>
    (intOk (C i j + p)).bind fun s => some (setCell C i j s)

/-- First `m` iterations of the `k` loop for the cell `(i, j)`. -/
def innerS (A B : Mat Int) (i j m : Nat) (C : Mat Int) : Option (Mat Int) :=
  forUpToM m (fun k C => stepS A B i j k C) C

/-- Multiply kernel of the signed program (loops `i`, `j`, `k`). -/
def kernelS (n : Nat) (A B C : Mat Int) : Option (Mat Int) :=
  forUpToM n (fun i C => forUpToM n (fun j C => innerS A B i j n C) C) C

/-- Exact integer dot product over the first `m` indices. -/
def dotI (A B : Mat Int) (i j m : Nat) : Int :=
  ∑ k in Finset.range m, A i k * B k j

/-- No product and no partial sum of the `n × n` product leaves `int`. -/
def NoOverflow (n : Nat) (A B : Mat Int) : Prop :=
  (∀ i j k, i < n → j < n → k < n →
      INT_MIN ≤ A i k * B k j ∧ A i k * B k j ≤ INT_MAX) ∧
  (∀ i j m, i < n → j < n → m ≤ n →
      INT_MIN ≤ dotI A B i j m ∧ dotI A B i j m ≤ INT_MAX)

/-- Cells of `C` on the `n × n` grid are `0`. -/
def ZeroGrid (n : Nat) (C : Mat Int) : Prop := ∀ i j, i < n → j < n → C i j = 0

/-- Cells of `M` on the `n × n` grid lie in `[0, 9]`. -/
def Digits (n : Nat) (M : Mat Int) : Prop :=
  ∀ i j, i < n → j < n → 0 ≤ M i j ∧ M i j ≤ 9

/-- State of the signed kernel after the rows before `i`, the cells of row
`i` before column `j`, and `m` iterations of the `k` loop of cell `(i, j)`. -/
def kernelSAt (n : Nat) (A B : Mat Int) (i j m : Nat) (C : Mat Int) : Option (Mat Int) :=
  (forUpToM i (fun i C => forUpToM n (fun j C => innerS A B i j n C) C) C).bind fun C1 =>
    (forUpToM j (fun j C => innerS A B i j n C) C1).bind fun C2 => innerS A B i j m C2

/-- Matrix given by its rows; cells outside the rows read `0`. -/
def ofRows (rows : List (List Int)) : Mat Int :=
  fun i j => (rows.getD i []).getD j 0

/-- Left factor `[[1,2],[3,4]]` of the worked example. -/
def exampleA : Mat Int := ofRows [[1, 2], [3, 4]]

/-- Right factor `[[5,6],[7,8]]` of the worked example. -/
def exampleB : Mat Int := ofRows [[5, 6], [7, 8]]

/-! ## Random population -/

/-- The three grids during the fill loop, with the number of `rand()` calls
made so far. -/
structure Grids (α : Type) where
  A : Mat α
  B : Mat α
  C : Mat α
  calls : Nat

/-- Body of the fill loop of the signed program:
`A[i][j] = rand() % 10; B[i][j] = rand() % 10; C[i][j] = 0;`.
`rand t` is the result of the `t`-th call of `rand()`; `%` on `int` truncates
towards zero. -/
def fillCellS (rand : Nat → Int) (i j : Nat) (s : Grids Int) : Grids Int :=
  { A := setCell s.A i j (Int.tmod (rand s.calls) 10)
    B := setCell s.B i j (Int.tmod (rand (s.calls + 1)) 10)
    C := setCell s.C i j 0
    calls := s.calls + 2 }

/-- Fill loop of the signed program. -/
def fillS (n : Nat) (rand : Nat → Int) (s : Grids Int) : Grids Int :=
  forUpTo n (fun i s => forUpTo n (fun j s => fillCellS rand i j s) s) s

/-- Conversion `(uint32_t)x` of an `int` value. -/
def castU32 (x : Int) : Nat := (x % 4294967296).toNat

/-- Body of the fill loop of the unsigned program:
`A[i][j] = (uint32_t)(rand() % 1037); B[i][j] = (uint32_t)(rand() % 1037);
C[i][j] = 0u;`. -/
def fillCellU (rand : Nat → Int) (i j : Nat) (s : Grids Nat) : Grids Nat :=
  { A := setCell s.A i j (castU32 (Int.tmod (rand s.calls) 1037))
    B := setCell s.B i j (castU32 (Int.tmod (rand (s.calls + 1)) 1037))
    C := setCell s.C i j 0
    calls := s.calls + 2 }

/-- Fill loop of the unsigned program. -/
def fillU (n : Nat) (rand : Nat → Int) (s : Grids Nat) : Grids Nat :=
  forUpTo n (fun i s => forUpTo n (fun j s => fillCellU rand i j s) s) s

/-- Cell `(a, b)` is as the signed fill loop leaves it. -/
def GoodS (s : Grids Int) (a b : Nat) : Prop :=
  0 ≤ s.A a b ∧ s.A a b < 10 ∧ 0 ≤ s.B a b ∧ s.B a b < 10 ∧ s.C a b = 0

/-- Cell `(a, b)` is as the unsigned fill loop leaves it. -/
def GoodU (s : Grids Nat) (a b : Nat) : Prop :=
  s.A a b ≤ 1036 ∧ s.B a b ≤ 1036 ∧ s.C a b = 0

/-- Sample sequence of `rand()` results with `RAND_MAX = 32767`. -/
def sampleRand (t : Nat) : Int := ((12345 * t + 6789) % 32768 : Nat)

/-! ## Allocation and cleanup

The allocation section is the same in the two programs up to the cell type.
The allocator answers the `t`-th `malloc` request with a fresh block when
`oracle t` holds and with `NULL` otherwise; the fresh block is named by the
request number. -/

/-- Pointer returned by `malloc`: `none` is `NULL`. -/
abbrev Ptr := Option Nat

/-- Allocator state. -/
structure Heap where
  /-- number of `malloc` requests issued so far -/
  next : Nat
  /-- blocks currently allocated -/
  live : Finset Nat
  /-- every block handed out, most recent first -/
  obtained : List Nat
  /-- every block released by `free`, most recent first -/
  freed : List Nat

/-- Allocator state at program start. -/
def Heap.init : Heap := { next := 0, live := ∅, obtained := [], freed := [] }

/-- Call of `malloc`. -/
def malloc (oracle : Nat → Bool) (h : Heap) : Ptr × Heap :=
  if oracle h.next then
    (some h.next,
      { next := h.next + 1, live := insert h.next h.live,
        obtained := h.next :: h.obtained, freed := h.freed })
  else
    (none, { next := h.next + 1, live := h.live, obtained := h.obtained, freed := h.freed })

/-- Call of `free`: a no-op on `NULL`, undefined (`none`) on a block that is
not currently allocated. -/
def free (p : Ptr) (h : Heap) : Option Heap :=
  match p with
  | none => some h
  | some b =>
    if b ∈ h.live then
      some { next := h.next, live := h.live.erase b, obtained := h.obtained,
             freed := b :: h.freed }
    else none

/-- Contents of a row-pointer array: `none` for a slot that was never
assigned, `some p` for a slot holding the pointer `p`. -/
abbrev Slots := Nat → Option Ptr

/-- Assignment `T[i] = p`. -/
def setSlot (T : Slots) (i : Nat) (p : Ptr) : Slots :=
  fun r => if r = i then some p else T r

/-- Allocator state together with the row-pointer arrays `A`, `B`, `C`. -/
structure Store where
  heap : Heap
  rowA : Slots
  rowB : Slots
  rowC : Slots

/-- Where the allocation section leaves the program. -/
inductive Outcome where
  /-- `return status;` with the allocator in state `h` -/
  | exit (status : Nat) (h : Heap)
  /-- every allocation succeeded; execution goes on to the fill loop -/
  | ready (s : Store)

/-- Statements `A[i] = malloc(..); B[i] = malloc(..); C[i] = malloc(..);`. -/
def allocRow (oracle : Nat → Bool) (i : Nat) (s : Store) : Store :=
  let a := malloc oracle s.heap
  let b := malloc oracle a.2
  let c := malloc oracle b.2
  { heap := c.2, rowA := setSlot s.rowA i a.1, rowB := setSlot s.rowB i b.1,
    rowC := setSlot s.rowC i c.1 }

/-- Body `free(A[r]); free(B[r]); free(C[r]);` of the cleanup loop; reading a
slot that was never assigned is undefined. -/
def freeRow (s : Store) (r : Nat) (h : Heap) : Option Heap :=
  (s.rowA r).bind fun a => (s.rowB r).bind fun b => (s.rowC r).bind fun c =>
    (free a h).bind fun h1 => (free b h1).bind fun h2 => free c h2

/-- Statements `free(A); free(B); free(C);` on the top-level arrays. -/
def freeTops (topA topB topC : Ptr) (h : Heap) : Option Heap :=
  (free topA h).bind fun h1 => (free topB h1).bind fun h2 => free topC h2

/-- Failure branch of the row loop at row `i`:
`for (r = 0; r <= i; r++) { free(A[r]); free(B[r]); free(C[r]); }
free(A); free(B); free(C); return 1;`. -/
def rowFailure (topA topB topC : Ptr) (i : Nat) (s : Store) : Option Outcome :=
  (forUpToM (i + 1) (fun r h => freeRow s r h) s.heap).bind fun h =>
    (freeTops topA topB topC h).bind fun h1 => some (Outcome.exit 1 h1)

/-- Row-allocation loop `for (i = ..; i < n; i++)` with `m` iterations left,
the next one at row `i`. -/
def rowLoop (oracle : Nat → Bool) (topA topB topC : Ptr) :
    Nat → Nat → Store → Option Outcome
  | 0, _, s => some (Outcome.ready s)
  | m + 1, i, s =>
    let s1 := allocRow oracle i s
    (s1.rowA i).bind fun a => (s1.rowB i).bind fun b => (s1.rowC i).bind fun c =>
      if a = none ∨ b = none ∨ c = none then rowFailure topA topB topC i s1
      else rowLoop oracle topA topB topC m (i + 1) s1

/-- Allocation section of `main` for a validated size `n`: the three
top-level arrays, then the rows. -/
def allocPhase (n : Nat) (oracle : Nat → Bool) : Option Outcome :=
  let a := malloc oracle Heap.init
  let b := malloc oracle a.2
  let c := malloc oracle b.2
  if a.1 = none ∨ b.1 = none ∨ c.1 = none then
    (freeTops a.1 b.1 c.1 c.2).bind fun h => some (Outcome.exit 1 h)
  else
    rowLoop oracle a.1 b.1 c.1 n 0
      { heap := c.2, rowA := fun _ => none, rowB := fun _ => none, rowC := fun _ => none }

/-- Some request among those a run of size `n` can issue is refused. -/
def SomeRequestFails (n : Nat) (oracle : Nat → Bool) : Prop :=
  ∃ t, t < 3 + 3 * n ∧ oracle t = false

/-- Consistency of the allocator state: no block is released twice, no
block is handed out twice, the blocks handed out are the live and the
released ones, a released block is not live, and block names are below the
request counter. -/
def Heap.WF (h : Heap) : Prop :=
  h.freed.Nodup ∧ h.obtained.Nodup ∧ (∀ b, b ∈ h.obtained ↔ b ∈ h.live ∨ b ∈ h.freed) ∧
    (∀ b, b ∈ h.freed → b ∉ h.live) ∧ (∀ b, b ∈ h.obtained → b < h.next)

/-- Pointer `p` is what the request named `b` returned: the block `b` if it is
live, `NULL` if the request was refused. -/
def PtrFor (live : Finset Nat) (b : Nat) (p : Ptr) : Prop :=
  (p = some b ∧ b ∈ live) ∨ (p = none ∧ b ∉ live)

/-- The blocks handed out so far are exactly the granted requests among those
issued: block `b` was obtained iff request `b` was issued and `oracle b`
holds. -/
def Granted (oracle : Nat → Bool) (h : Heap) : Prop :=
  ∀ b, b ∈ h.obtained ↔ b < h.next ∧ oracle b = true

/-- One of the three top-level requests (`A`, `B`, `C`, requests `0`, `1`,
`2`) is refused. -/
def TopFailure (oracle : Nat → Bool) : Prop :=
  oracle 0 = false ∨ oracle 1 = false ∨ oracle 2 = false

/-- The first refused request is one of row `i`: every request before row
`i` is granted and one of `A[i]`, `B[i]`, `C[i]` (requests `3 + 3 * i`,
`4 + 3 * i`, `5 + 3 * i`) is refused. -/
def FirstFailureAtRow (n : Nat) (oracle : Nat → Bool) (i : Nat) : Prop :=
  i < n ∧ (∀ t, t < 3 + 3 * i → oracle t = true) ∧
    (oracle (3 + 3 * i) = false ∨ oracle (4 + 3 * i) = false ∨ oracle (5 + 3 * i) = false)

/-- State at the head of the row loop when every request so far succeeded:
`3 + 3 * i` blocks are live and the rows before `i` hold their blocks. -/
def RowInv (i : Nat) (s : Store) : Prop :=
  s.heap.next = 3 + 3 * i ∧ (∀ x, x ∈ s.heap.live ↔ x < 3 + 3 * i) ∧
    (∀ r, r < i → s.rowA r = some (some (3 + 3 * r)) ∧ s.rowB r = some (some (4 + 3 * r)) ∧
      s.rowC r = some (some (5 + 3 * r))) ∧ s.heap.WF

/-! ## Size validation -/

/-- Largest value of `long`. -/
def LONG_MAX : Int := 9223372036854775807

/-- Smallest value of `long`. -/
def LONG_MIN : Int := -9223372036854775808

/-- Largest value of `unsigned long`. -/
def ULONG_MAX : Nat := 18446744073709551615

/-- Terminator of a C string. -/
def NUL : Char := Char.ofNat 0

/-- Predicate `isspace` in the C locale: space, `\t`, `\n`, `\v`, `\f`, `\r`. -/
def isSpaceC (c : Char) : Bool :=
  c.toNat = 32 || (9 ≤ c.toNat && c.toNat ≤ 13)

/-- Decimal digit. -/
def isDigitC (c : Char) : Bool := 48 ≤ c.toNat && c.toNat ≤ 57

/-- Value of a decimal digit. -/
def digitVal (c : Char) : Nat := c.toNat - 48

/-- Value of a sequence of decimal digits. -/
def digitsVal (ds : List Char) : Nat :=
  ds.foldl (fun acc c => 10 * acc + digitVal c) 0

/-- Optional sign in front of the digits: whether it is `-`, and the text
after it. -/
def readSign : List Char → Bool × List Char
  | [] => (false, [])
  | c :: r => if c = '-' then (true, r) else if c = '+' then (false, r) else (false, c :: r)

/-- Subject sequence of `strtol` / `strtoul` in base 10: leading white space,
an optional sign, the longest run of decimal digits. -/
structure Scan where
  /-- a `-` sign was read -/
  negative : Bool
  /-- the digits read -/
  digits : List Char
  /-- number of characters before the first digit -/
  lead : Nat

/-- Scan of the text of a token (the characters before its terminator). -/
def scan (tok : List Char) : Scan :=
  let sg := readSign (tok.dropWhile isSpaceC)
  { negative := sg.1, digits := sg.2.takeWhile isDigitC, lead := tok.length - sg.2.length }

/-- What a conversion function reports: the returned value, the offset of
`endptr` from the start of the token, and whether `errno` is `ERANGE`. -/
structure Conv (α : Type) where
  value : α
  consumed : Nat
  erange : Bool

/-- Library function `strtol(tok, &endptr, 10)`. -/
def strtol (tok : List Char) : Conv Int :=
  let s := scan tok
  if s.digits = [] then { value := 0, consumed := 0, erange := false }
  else
    let v : Int := if s.negative then -(digitsVal s.digits : Int) else (digitsVal s.digits : Int)
    let e := s.lead + s.digits.length
    if LONG_MAX < v then { value := LONG_MAX, consumed := e, erange := true }
    else if v < LONG_MIN then { value := LONG_MIN, consumed := e, erange := true }
    else { value := v, consumed := e, erange := false }

/-- Library function `strtoul(tok, &endptr, 10)`: a magnitude above
`ULONG_MAX` is a range error; otherwise a leading `-` negates the value in
`unsigned long`. -/
def strtoul (tok : List Char) : Conv Nat :=
  let s := scan tok
  if s.digits = [] then { value := 0, consumed := 0, erange := false }
  else
    let e := s.lead + s.digits.length
    if ULONG_MAX < digitsVal s.digits then { value := ULONG_MAX, consumed := e, erange := true }
    else if s.negative then
      { value := (U64 - digitsVal s.digits) % U64, consumed := e, erange := false }
    else { value := digitsVal s.digits, consumed := e, erange := false }

/-- Character `*endptr` when `endptr` is `k` characters into the token. -/
def charAt (tok : List Char) (k : Nat) : Char := tok.getD k NUL

/-- Conversion `(int)x` of a `long`. -/
def castInt (x : Int) : Int := (x + 2147483648) % 4294967296 - 2147483648

/-- Size validation of the signed program: the exit status on rejection, the
value of `n` otherwise. -/
def validateSigned (tok : List Char) : Except Nat Int :=
  let r := strtol tok
  if r.erange ∨ r.consumed = 0 ∨ charAt tok r.consumed ≠ NUL then Except.error 1
  else if r.value ≤ 0 ∨ r.value > 100000 then Except.error 1
  else Except.ok (castInt r.value)

/-- Size validation of the unsigned program. -/
def validateUnsigned (tok : List Char) : Except Nat Nat :=
  let r := strtoul tok
  if r.erange ∨ r.consumed = 0 ∨ charAt tok r.consumed ≠ NUL then Except.error 1
  else if r.value = 0 ∨ r.value > 100000 then Except.error 1
  else Except.ok r.value

/-- Signed program from the validation of `argv[1]` to the end of the
allocation section. -/
def startSigned (tok : List Char) (oracle : Nat → Bool) : Option Outcome :=
  match validateSigned tok with
  | Except.error status => some (Outcome.exit status Heap.init)
  | Except.ok n => allocPhase n.toNat oracle

/-- Unsigned program from the validation of `argv[1]` to the end of the
allocation section. -/
def startUnsigned (tok : List Char) (oracle : Nat → Bool) : Option Outcome :=
  match validateUnsigned tok with
  | Except.error status => some (Outcome.exit status Heap.init)
  | Except.ok n => allocPhase n oracle

/-- The token is the text of a C string: it holds no terminator. -/
def IsCText (tok : List Char) : Prop := NUL ∉ tok

/-- Token that is a `-` sign followed by decimal digits only. -/
def IsNegativeDecimal (tok : List Char) : Prop :=
  ∃ ds, tok = '-' :: ds ∧ ds ≠ [] ∧ ∀ c ∈ ds, isDigitC c = true

/-- Function `strtol` converts the whole non-empty token without a range error
to a value in `(0, 100000]`. -/
def AcceptedBySigned (tok : List Char) : Prop :=
  (strtol tok).erange = false ∧ tok ≠ [] ∧ (strtol tok).consumed = tok.length ∧
    0 < (strtol tok).value ∧ (strtol tok).value ≤ 100000

/-- The token `-18446744073709551615`. -/
def negativeToken : List Char :=
  ['-', '1', '8', '4', '4', '6', '7', '4', '4', '0', '7', '3', '7', '0', '9', '5', '5', '1',
    '6', '1', '5']

/-! ### Frame lemmas for the loops -/

theorem forUpTo_succ {σ : Type} (n : Nat) (body : Nat → σ → σ) (s : σ) :
    forUpTo (n + 1) body s = body n (forUpTo n body s) := rfl

theorem colLoop_apply {α : Type} (f : Nat → α) (i : Nat) (m : Nat) (C : Mat α) (a b : Nat) :
    forUpTo m (fun j C => setCell C i j (f j)) C a b
      = if a = i ∧ b < m then f b else C a b := by
  induction m with
  | zero => simp [forUpTo]
  | succ m ih =>
    rw [forUpTo_succ]
    simp only [setCell]
    rw [ih]
    by_cases h1 : a = i
    · by_cases h2 : b = m
      · subst h2; simp [h1]
      · by_cases h3 : b < m
        · have : b < m + 1 := by omega
          simp [h1, h2, h3, this]
        · have : ¬ b < m + 1 := by omega
          simp [h1, h2, h3, this]
    · simp [h1]

theorem rowLoop_apply {α : Type} (f : Nat → Nat → α) (n m : Nat) (C : Mat α) (a b : Nat) :
    forUpTo m (fun i C => forUpTo n (fun j C => setCell C i j (f i j)) C) C a b
      = if a < m ∧ b < n then f a b else C a b := by
  induction m with
  | zero => simp [forUpTo]
  | succ m ih =>
    rw [forUpTo_succ, colLoop_apply, ih]
    by_cases h1 : a = m
    · subst h1
      by_cases h2 : b < n <;> simp [h2]
    · by_cases h3 : a < m
      · have : a < m + 1 := by omega
        simp [h1, h3, this]
      · have : ¬ a < m + 1 := by omega
        simp [h1, h3, this]

theorem kernelU_apply (n : Nat) (A B C : Mat Nat) (a b : Nat) :
    kernelU n A B C a b
      = if a < n ∧ b < n then narrowU32 (dotAcc A B a b n) else C a b := by
  unfold kernelU cellU
  exact rowLoop_apply (fun i j => narrowU32 (dotAcc A B i j n)) n n C a b

theorem kernelU32_apply (n : Nat) (A B C : Mat Nat) (a b : Nat) :
    kernelU32 n A B C a b = if a < n ∧ b < n then dotAcc32 A B a b n else C a b := by
  unfold kernelU32
  exact rowLoop_apply (fun i j => dotAcc32 A B i j n) n n C a b

/-! ### The accumulator -/

theorem dot_succ (A B : Mat Nat) (i j m : Nat) :
    dot A B i j (m + 1) = dot A B i j m + A i m * B m j := by
  simp [dot, Finset.sum_range_succ]

theorem dotAcc_succ (A B : Mat Nat) (i j m : Nat) :
    dotAcc A B i j (m + 1) = accStep A B i j m (dotAcc A B i j m) := rfl

theorem dotAcc32_succ (A B : Mat Nat) (i j m : Nat) :
    dotAcc32 A B i j (m + 1) = accStep32 A B i j m (dotAcc32 A B i j m) := rfl

theorem dotAcc_lt (A B : Mat Nat) (i j m : Nat) : dotAcc A B i j m < U64 := by
  cases m with
  | zero => simp [dotAcc, forUpTo, U64]
  | succ m => rw [dotAcc_succ]; exact Nat.mod_lt _ (by simp [U64])

/-- The 64-bit accumulator, reduced modulo `2^32`, is the exact partial sum
reduced modulo `2^32`. -/
theorem dotAcc_mod_U32 (A B : Mat Nat) (i j m : Nat) :
    dotAcc A B i j m % U32 = dot A B i j m % U32 := by
  induction m with
  | zero => simp [dotAcc, forUpTo, dot]
  | succ m ih =>
    have hdvd : U32 ∣ U64 := ⟨4294967296, by simp [U32, U64]⟩
    rw [dotAcc_succ, dot_succ]
    unfold accStep toU64
    rw [Nat.mod_mod_of_dvd _ hdvd, Nat.add_mod, Nat.mod_mod_of_dvd _ hdvd, ih,
      Nat.mul_mod, Nat.mod_mod_of_dvd _ hdvd, Nat.mod_mod_of_dvd _ hdvd,
      ← Nat.mul_mod, ← Nat.add_mod]

theorem dotAcc32_eq (A B : Mat Nat) (i j m : Nat) :
    dotAcc32 A B i j m = dot A B i j m % U32 := by
  induction m with
  | zero => simp [dotAcc32, forUpTo, dot]
  | succ m ih =>
    rw [dotAcc32_succ, dot_succ]
    unfold accStep32
    rw [ih, Nat.add_mod_mod, Nat.mod_add_mod]

theorem term_le (n : Nat) (A B : Mat Nat) (hA : Bounded1036 n A) (hB : Bounded1036 n B)
    (i j k : Nat) (hi : i < n) (hj : j < n) (hk : k < n) :
    A i k * B k j ≤ 1073296 := by
  have h1 := hA i k hi hk
  have h2 := hB k j hk hj
  calc A i k * B k j ≤ 1036 * 1036 := Nat.mul_le_mul h1 h2
    _ = 1073296 := by norm_num

theorem dot_le (n : Nat) (A B : Mat Nat) (hA : Bounded1036 n A) (hB : Bounded1036 n B)
    (i j : Nat) (hi : i < n) (hj : j < n) (m : Nat) (hm : m ≤ n) :
    dot A B i j m ≤ m * 1073296 := by
  induction m with
  | zero => simp [dot]
  | succ m ih =>
    rw [dot_succ]
    have h1 := ih (by omega)
    have h2 := term_le n A B hA hB i j m hi hj (by omega)
    linarith

/-- While the exact partial sums stay below `2^64` and the cells are 64-bit
representable, the accumulator holds the exact partial sum. -/
theorem dotAcc_exact (n : Nat) (A B : Mat Nat) (hA : Bounded1036 n A) (hB : Bounded1036 n B)
    (hn : n ≤ 100000) (i j : Nat) (hi : i < n) (hj : j < n) (m : Nat) (hm : m ≤ n) :
    dotAcc A B i j m = dot A B i j m := by
  induction m with
  | zero => simp [dotAcc, forUpTo, dot]
  | succ m ih =>
    have hle := dot_le n A B hA hB i j hi hj (m + 1) hm
    rw [dot_succ] at hle
    have ha := hA i m hi (by omega)
    have hb := hB m j (by omega) hj
    have ht := term_le n A B hA hB i j m hi hj (by omega)
    rw [dotAcc_succ, dot_succ, ih (by omega)] at *
    unfold accStep toU64 U64
    rw [Nat.mod_eq_of_lt (by omega : A i m < 18446744073709551616),
      Nat.mod_eq_of_lt (by omega : B m j < 18446744073709551616),
      Nat.mod_eq_of_lt (by omega : A i m * B m j < 18446744073709551616),
      Nat.mod_eq_of_lt (by omega)]

/-! ### Unsigned kernel: results -/

/-- C1. Unsigned multiply kernel: every cell `(i, j)` of the `n × n` result
holds the exact dot product of row `i` of `A` and column `j` of `B` reduced
modulo `2^32`, for every size and all cell values, hence also when the
64-bit accumulator wraps. -/
theorem kernelU_wraps (n : Nat) (A B C : Mat Nat) (i j : Nat) (hi : i < n) (hj : j < n) :
    kernelU n A B C i j = (∑ k in Finset.range n, A i k * B k j) % 4294967296 := by
  rw [kernelU_apply, if_pos ⟨hi, hj⟩]
  exact dotAcc_mod_U32 A B i j n

theorem kernelU_wraps_witness :
    (0 < 2 ∧ 1 < 2) ∧
    kernelU 2 (fun _ _ => 4294967295) (fun _ _ => 4294967295) (fun _ _ => 7) 0 1
      = (∑ _k in Finset.range 2, (4294967295 : Nat) * 4294967295) % 4294967296 :=
  ⟨by decide, kernelU_wraps 2 (fun _ _ => 4294967295) (fun _ _ => 4294967295) (fun _ _ => 7) 0 1
    (by decide) (by decide)⟩

/-- C6. Unsigned program with `0 < n ≤ 100000` and cells in `[0, 1036]`:
every term is at most `1036^2 = 1073296`, and after any number `m ≤ n` of
iterations the 64-bit accumulator holds the exact partial sum, which is
below `2^64`. -/
theorem accumulator_never_wraps (n : Nat) (A B : Mat Nat) (_hpos : 0 < n) (hn : n ≤ 100000)
    (hA : Bounded1036 n A) (hB : Bounded1036 n B) (i j : Nat) (hi : i < n) (hj : j < n) :
    (∀ k, k < n → A i k * B k j ≤ 1073296) ∧
    (∀ m, m ≤ n → dotAcc A B i j m = ∑ k in Finset.range m, A i k * B k j) ∧
    (∀ m, m ≤ n → ∑ k in Finset.range m, A i k * B k j < 18446744073709551616) := by
  refine ⟨fun k hk => term_le n A B hA hB i j k hi hj hk,
    fun m hm => dotAcc_exact n A B hA hB hn i j hi hj m hm, fun m hm => ?_⟩
  have h := dot_le n A B hA hB i j hi hj m hm
  unfold dot at h
  have : m * 1073296 ≤ 100000 * 1073296 := Nat.mul_le_mul_right _ (by omega)
  omega

theorem accumulator_never_wraps_witness :
    (0 < 2 ∧ 2 ≤ 100000 ∧ Bounded1036 2 (fun _ _ => 1036) ∧ Bounded1036 2 (fun _ _ => 1036)
      ∧ 1 < 2 ∧ 0 < 2) ∧
    (∀ m, m ≤ 2 → dotAcc (fun _ _ => 1036) (fun _ _ => 1036) 1 0 m
      = ∑ _k in Finset.range m, 1036 * 1036) :=
  ⟨⟨by decide, by decide, fun _ _ _ _ => Nat.le_refl _, fun _ _ _ _ => Nat.le_refl _,
      by decide, by decide⟩,
    (accumulator_never_wraps 2 (fun _ _ => 1036) (fun _ _ => 1036) (by decide) (by decide)
      (fun _ _ _ _ => Nat.le_refl _) (fun _ _ _ _ => Nat.le_refl _) 1 0
      (by decide) (by decide)).2.1⟩

/-- C8. Unsigned program with `0 < n ≤ 4000` and cells in `[0, 1036]`: every
exact dot product is at most `4000 * 1073296 = 4293184000 ≤ 2^32 - 1`, and
the stored cell equals the exact dot product. -/
theorem no_truncation_up_to_4000 (n : Nat) (A B C : Mat Nat) (_hpos : 0 < n) (hn : n ≤ 4000)
    (hA : Bounded1036 n A) (hB : Bounded1036 n B) (i j : Nat) (hi : i < n) (hj : j < n) :
    (∑ k in Finset.range n, A i k * B k j) ≤ 4000 * 1073296 ∧
    4000 * 1073296 = 4293184000 ∧ 4293184000 ≤ 4294967295 ∧
    kernelU n A B C i j = ∑ k in Finset.range n, A i k * B k j := by
  have h := dot_le n A B hA hB i j hi hj n (Nat.le_refl n)
  have h2 : n * 1073296 ≤ 4000 * 1073296 := Nat.mul_le_mul_right _ hn
  have h3 : dot A B i j n ≤ 4000 * 1073296 := le_trans h h2
  refine ⟨h3, by norm_num, by norm_num, ?_⟩
  rw [kernelU_apply, if_pos ⟨hi, hj⟩]
  unfold narrowU32
  rw [dotAcc_mod_U32]
  exact Nat.mod_eq_of_lt (by unfold U32; omega)

theorem no_truncation_up_to_4000_witness :
    (0 < 3 ∧ 3 ≤ 4000 ∧ Bounded1036 3 (fun _ _ => 1036) ∧ Bounded1036 3 (fun i _ => i)
      ∧ 2 < 3 ∧ 0 < 3) ∧
    kernelU 3 (fun _ _ => 1036) (fun i _ => i) (fun _ _ => 0) 2 0
      = ∑ k in Finset.range 3, 1036 * k :=
  ⟨⟨by decide, by decide, fun _ _ _ _ => Nat.le_refl _, fun i _ hi _ => by show i ≤ 1036; omega,
      by decide, by decide⟩,
    (no_truncation_up_to_4000 3 (fun _ _ => 1036) (fun i _ => i) (fun _ _ => 0) (by decide)
      (by decide) (fun _ _ _ _ => Nat.le_refl _) (fun i _ hi _ => by show i ≤ 1036; omega) 2 0
      (by decide) (by decide)).2.2.2⟩

/-- C10. Unsigned program: for every size, all cell values and every initial
content of `C`, the kernel with the 64-bit accumulator narrowed to 32 bits
leaves the same matrix as the kernel that accumulates in a wrapping 32-bit
accumulator. -/
theorem kernelU_eq_kernelU32 (n : Nat) (A B C : Mat Nat) :
    kernelU n A B C = kernelU32 n A B C := by
  funext a b
  rw [kernelU_apply, kernelU32_apply]
  by_cases h : a < n ∧ b < n
  · rw [if_pos h, if_pos h, dotAcc32_eq]
    exact dotAcc_mod_U32 A B a b n
  · rw [if_neg h, if_neg h]

/-! ### Signed kernel -/

theorem forUpToM_succ {σ : Type} (n : Nat) (body : Nat → σ → Option σ) (s : σ) :
    forUpToM (n + 1) body s = (forUpToM n body s).bind (body n) := rfl

theorem dotI_succ (A B : Mat Int) (i j m : Nat) :
    dotI A B i j (m + 1) = dotI A B i j m + A i m * B m j := by
  simp [dotI, Finset.sum_range_succ]

theorem intOk_of_range (x : Int) (h : INT_MIN ≤ x ∧ x ≤ INT_MAX) : intOk x = some x := by
  unfold intOk
  rw [if_pos h]

theorem setCell_setCell {α : Type} (M : Mat α) (i j : Nat) (v w : α) :
    setCell (setCell M i j v) i j w = setCell M i j w := by
  funext a b
  unfold setCell
  by_cases h : a = i ∧ b = j <;> simp [h]

theorem setCell_same {α : Type} (M : Mat α) (i j : Nat) (v : α) :
    setCell M i j v i j = v := by
  simp [setCell]

/-- The `k` loop adds the exact partial dot product to the cell as long as
the products and the running values stay in `int`. -/
theorem innerS_exact (A B : Mat Int) (i j : Nat) (C : Mat Int) (m : Nat)
    (hp : ∀ k, k < m → INT_MIN ≤ A i k * B k j ∧ A i k * B k j ≤ INT_MAX)
    (hs : ∀ k, k ≤ m → INT_MIN ≤ C i j + dotI A B i j k ∧ C i j + dotI A B i j k ≤ INT_MAX) :
    innerS A B i j m C = some (setCell C i j (C i j + dotI A B i j m)) := by
  induction m with
  | zero =>
    have : setCell C i j (C i j + dotI A B i j 0) = C := by
      funext a b
      unfold setCell
      by_cases h : a = i ∧ b = j
      · rw [if_pos h, h.1, h.2]; simp [dotI]
      · rw [if_neg h]
    rw [this]; rfl
  | succ m ih =>
    have ih1 := ih (fun k hk => hp k (by omega)) (fun k hk => hs k (by omega))
    unfold innerS at ih1 ⊢
    rw [forUpToM_succ, ih1]
    simp only [Option.some_bind, stepS]
    rw [intOk_of_range _ (hp m (by omega))]
    simp only [Option.some_bind, setCell_same]
    have hsum : C i j + dotI A B i j m + A i m * B m j = C i j + dotI A B i j (m + 1) := by
      rw [dotI_succ]; ring
    rw [hsum, intOk_of_range _ (hs (m + 1) (Nat.le_refl _))]
    simp only [Option.some_bind, setCell_setCell]

theorem colLoopS_exact (n : Nat) (A B C : Mat Int) (hno : NoOverflow n A B)
    (i : Nat) (hi : i < n) (hz : ∀ j, j < n → C i j = 0) (m : Nat) (hm : m ≤ n) :
    forUpToM m (fun j C => innerS A B i j n C) C
      = some (fun a b => if a = i ∧ b < m then dotI A B a b n else C a b) := by
  induction m with
  | zero => simp [forUpToM]
  | succ m ih =>
    rw [forUpToM_succ, ih (by omega)]
    simp only [Option.some_bind]
    have hm' : m < n := by omega
    rw [innerS_exact]
    · congr 1
      funext a b
      unfold setCell
      have hzero := hz m hm'
      by_cases h1 : a = i
      · by_cases h2 : b = m
        · subst h1; subst h2; simp [hzero]
        · by_cases h3 : b < m
          · have : b < m + 1 := by omega
            simp [h1, h2, h3, this]
          · have : ¬ b < m + 1 := by omega
            simp [h1, h2, h3, this]
      · simp [h1]
    · intro k hk
      exact hno.1 i m k hi hm' hk
    · intro k hk
      have hzero := hz m hm'
      simp only [lt_self_iff_false, and_false, if_false, hzero, zero_add]
      exact hno.2 i m k hi hm' hk

theorem rowLoopS_exact (n : Nat) (A B C : Mat Int) (hno : NoOverflow n A B)
    (hz : ZeroGrid n C) (m : Nat) (hm : m ≤ n) :
    forUpToM m (fun i C => forUpToM n (fun j C => innerS A B i j n C) C) C
      = some (fun a b => if a < m ∧ b < n then dotI A B a b n else C a b) := by
  induction m with
  | zero => simp [forUpToM]
  | succ m ih =>
    rw [forUpToM_succ, ih (by omega)]
    simp only [Option.some_bind]
    have hm' : m < n := by omega
    rw [colLoopS_exact n A B _ hno m hm' _ n (Nat.le_refl n)]
    · congr 1
      funext a b
      by_cases h1 : a = m
      · subst h1
        by_cases h2 : b < n <;> simp [h2]
      · by_cases h3 : a < m
        · have : a < m + 1 := by omega
          simp [h1, h3, this]
        · have : ¬ a < m + 1 := by omega
          simp [h1, h3, this]
    · intro j hj
      simp only [lt_self_iff_false, false_and, if_false]
      exact hz m j hm' hj

/-- Under `NoOverflow` and with `C` zero on entry the signed kernel is defined
and leaves the exact product on the grid. -/
theorem kernelS_exact (n : Nat) (A B C : Mat Int) (hno : NoOverflow n A B)
    (hz : ZeroGrid n C) :
    kernelS n A B C = some (fun a b => if a < n ∧ b < n then dotI A B a b n else C a b) :=
  rowLoopS_exact n A B C hno hz n (Nat.le_refl n)

theorem exampleProduct_noOverflow : NoOverflow 2 exampleA exampleB := by
  constructor
  · intro i j k hi hj hk
    interval_cases i <;> interval_cases j <;> interval_cases k <;>
      simp [exampleA, exampleB, ofRows, INT_MIN, INT_MAX]
  · intro i j m hi hj hm
    interval_cases i <;> interval_cases j <;> interval_cases m <;>
      simp [dotI, Finset.sum_range_succ, exampleA, exampleB, ofRows, INT_MIN, INT_MAX]

theorem zeroGrid_zero (n : Nat) : ZeroGrid n (fun _ _ => 0) := fun _ _ _ _ => rfl

theorem digits_nine (n : Nat) : Digits n (fun _ _ => 9) :=
  fun _ _ _ _ => ⟨by norm_num, by norm_num⟩

theorem digits_term (n : Nat) (A B : Mat Int) (hA : Digits n A) (hB : Digits n B)
    (i j k : Nat) (hi : i < n) (hj : j < n) (hk : k < n) :
    0 ≤ A i k * B k j ∧ A i k * B k j ≤ 81 := by
  have h1 := hA i k hi hk
  have h2 := hB k j hk hj
  constructor
  · exact mul_nonneg h1.1 h2.1
  · nlinarith [h1.1, h1.2, h2.1, h2.2]

theorem digits_dotI (n : Nat) (A B : Mat Int) (hA : Digits n A) (hB : Digits n B)
    (i j : Nat) (hi : i < n) (hj : j < n) (m : Nat) (hm : m ≤ n) :
    0 ≤ dotI A B i j m ∧ dotI A B i j m ≤ 81 * (m : Int) := by
  induction m with
  | zero => simp [dotI]
  | succ m ih =>
    have h1 := ih (by omega)
    have h2 := digits_term n A B hA hB i j m hi hj (by omega)
    rw [dotI_succ]
    push_cast
    constructor <;> linarith [h1.1, h1.2, h2.1, h2.2]

theorem digits_noOverflow (n : Nat) (A B : Mat Int) (hn : n ≤ 100000)
    (hA : Digits n A) (hB : Digits n B) : NoOverflow n A B := by
  constructor
  · intro i j k hi hj hk
    have h := digits_term n A B hA hB i j k hi hj hk
    unfold INT_MIN INT_MAX
    constructor <;> linarith [h.1, h.2]
  · intro i j m hi hj hm
    have h := digits_dotI n A B hA hB i j hi hj m hm
    have hm' : (m : Int) ≤ 100000 := by exact_mod_cast le_trans hm hn
    unfold INT_MIN INT_MAX
    constructor <;> linarith [h.1, h.2]

/-- The run of the kernel cut after `m` iterations of the `k` loop of cell
`(i, j)` is defined and leaves the partial dot product in that cell. -/
theorem kernelSAt_exact (n : Nat) (A B C : Mat Int) (hno : NoOverflow n A B)
    (hz : ZeroGrid n C) (i j m : Nat) (hi : i < n) (hj : j < n) (hm : m ≤ n) :
    ∃ D, kernelSAt n A B i j m C = some D ∧ D i j = dotI A B i j m := by
  unfold kernelSAt
  rw [rowLoopS_exact n A B C hno hz i (by omega)]
  simp only [Option.some_bind]
  rw [colLoopS_exact n A B _ hno i hi _ j (by omega)]
  · simp only [Option.some_bind]
    rw [innerS_exact]
    · refine ⟨_, rfl, ?_⟩
      rw [setCell_same]
      simp [hz i j hi hj]
    · intro k hk
      exact hno.1 i j k hi hj (by omega)
    · intro k hk
      simp only [lt_self_iff_false, false_and, and_false, if_false, hz i j hi hj, zero_add]
      exact hno.2 i j k hi hj (by omega)
  · intro b hb
    simp only [lt_self_iff_false, false_and, if_false]
    exact hz i b hi hb

/-- C2. Signed multiply kernel: when no product and no partial sum leaves
`int` and `C` is zero on entry, the kernel is defined and every cell of the
result is the exact dot product. -/
theorem kernelS_correct (n : Nat) (A B C : Mat Int) (_hn : 1 ≤ n)
    (hno : NoOverflow n A B) (hz : ZeroGrid n C) :
    ∃ D, kernelS n A B C = some D ∧
      ∀ i j, i < n → j < n → D i j = ∑ k in Finset.range n, A i k * B k j := by
  refine ⟨_, kernelS_exact n A B C hno hz, fun i j hi hj => ?_⟩
  simp only [hi, hj, and_self, if_true, dotI]

theorem kernelS_correct_witness :
    (1 ≤ 2 ∧ NoOverflow 2 exampleA exampleB ∧ ZeroGrid 2 (fun _ _ => 0)) ∧
    ∃ D, kernelS 2 exampleA exampleB (fun _ _ => 0) = some D ∧
      D 0 0 = 19 ∧ D 0 1 = 22 ∧ D 1 0 = 43 ∧ D 1 1 = 50 := by
  refine ⟨⟨by decide, exampleProduct_noOverflow, zeroGrid_zero 2⟩, ?_⟩
  obtain ⟨D, hD, hcell⟩ := kernelS_correct 2 exampleA exampleB (fun _ _ => 0) (by decide)
    exampleProduct_noOverflow (zeroGrid_zero 2)
  refine ⟨D, hD, ?_, ?_, ?_, ?_⟩
  · rw [hcell 0 0 (by decide) (by decide)]
    simp [Finset.sum_range_succ, exampleA, exampleB, ofRows]
  · rw [hcell 0 1 (by decide) (by decide)]
    simp [Finset.sum_range_succ, exampleA, exampleB, ofRows]
  · rw [hcell 1 0 (by decide) (by decide)]
    simp [Finset.sum_range_succ, exampleA, exampleB, ofRows]
  · rw [hcell 1 1 (by decide) (by decide)]
    simp [Finset.sum_range_succ, exampleA, exampleB, ofRows]

/-- C9. Signed program with `0 < n ≤ 100000`, cells of `A` and `B` in
`[0, 9]` and `C` zero on entry: every product lies in `[0, 81]`; at every
point of the run the kernel is defined (no `int` operation overflows) and the
cell being accumulated holds the exact partial sum, which is at most
`81 * n ≤ 8100000 < 2^31 - 1`; the final `C` is the exact product. -/
theorem kernelS_overflow_unreachable (n : Nat) (A B C : Mat Int) (_hpos : 0 < n)
    (hn : n ≤ 100000) (hA : Digits n A) (hB : Digits n B) (hz : ZeroGrid n C) :
    (∀ i j k, i < n → j < n → k < n → 0 ≤ A i k * B k j ∧ A i k * B k j ≤ 81) ∧
    (∀ i j m, i < n → j < n → m ≤ n →
      ∃ D, kernelSAt n A B i j m C = some D ∧
        D i j = ∑ k in Finset.range m, A i k * B k j ∧
        0 ≤ D i j ∧ D i j ≤ 81 * (n : Int)) ∧
    (81 * (n : Int) ≤ 8100000 ∧ (8100000 : Int) < INT_MAX) ∧
    (∃ D, kernelS n A B C = some D ∧
      ∀ i j, i < n → j < n → D i j = ∑ k in Finset.range n, A i k * B k j) := by
  have hno := digits_noOverflow n A B hn hA hB
  refine ⟨fun i j k hi hj hk => digits_term n A B hA hB i j k hi hj hk, ?_, ?_, ?_⟩
  · intro i j m hi hj hm
    obtain ⟨D, hD, hcell⟩ := kernelSAt_exact n A B C hno hz i j m hi hj hm
    have hb := digits_dotI n A B hA hB i j hi hj m hm
    have hm' : (m : Int) ≤ n := by exact_mod_cast hm
    refine ⟨D, hD, by rw [hcell]; rfl, by rw [hcell]; exact hb.1, ?_⟩
    rw [hcell]; linarith [hb.2]
  · have : (n : Int) ≤ 100000 := by exact_mod_cast hn
    constructor
    · linarith
    · unfold INT_MAX; norm_num
  · refine ⟨_, kernelS_exact n A B C hno hz, fun i j hi hj => ?_⟩
    simp only [hi, hj, and_self, if_true, dotI]

theorem kernelS_overflow_unreachable_witness :
    (0 < 2 ∧ 2 ≤ 100000 ∧ Digits 2 (fun _ _ => 9) ∧ Digits 2 (fun _ _ => 9)
      ∧ ZeroGrid 2 (fun _ _ => 0)) ∧
    ∃ D, kernelS 2 (fun _ _ => 9) (fun _ _ => 9) (fun _ _ => 0) = some D ∧
      ∀ i j, i < 2 → j < 2 → D i j = ∑ _k in Finset.range 2, (9 : Int) * 9 :=
  ⟨⟨by decide, by decide, digits_nine 2, digits_nine 2, zeroGrid_zero 2⟩,
    (kernelS_overflow_unreachable 2 (fun _ _ => 9) (fun _ _ => 9) (fun _ _ => 0) (by decide)
      (by decide) (digits_nine 2) (digits_nine 2) (zeroGrid_zero 2)).2.2.2⟩

/-! ### Random population -/

/-- A loop whose body keeps `P` and establishes it at the iterations marked
by `hit` leaves `P` when `P` held before or a marked iteration ran. -/
theorem forUpTo_establishes {σ : Type} (P : σ → Prop) (body : Nat → σ → σ) (hit : Nat → Prop)
    (h : ∀ k s, (P s ∨ hit k) → P (body k s)) :
    ∀ m s, (P s ∨ ∃ k, k < m ∧ hit k) → P (forUpTo m body s) := by
  intro m
  induction m with
  | zero =>
    intro s hs
    rcases hs with hs | ⟨k, hk, _⟩
    · exact hs
    · omega
  | succ m ih =>
    intro s hs
    rw [forUpTo_succ]
    apply h
    rcases hs with hs | ⟨k, hk, hhit⟩
    · exact Or.inl (ih s (Or.inl hs))
    · by_cases hkm : k = m
      · subst hkm; exact Or.inr hhit
      · exact Or.inl (ih s (Or.inr ⟨k, by omega, hhit⟩))

theorem fillCellS_good (rand : Nat → Int) (hr : ∀ t, 0 ≤ rand t) (a b i j : Nat)
    (s : Grids Int) (h : GoodS s a b ∨ (a = i ∧ b = j)) : GoodS (fillCellS rand i j s) a b := by
  have h1 := Int.tmod_nonneg 10 (hr s.calls)
  have h2 := Int.tmod_lt_of_pos (rand s.calls) (by norm_num : (0 : Int) < 10)
  have h3 := Int.tmod_nonneg 10 (hr (s.calls + 1))
  have h4 := Int.tmod_lt_of_pos (rand (s.calls + 1)) (by norm_num : (0 : Int) < 10)
  unfold GoodS fillCellS setCell
  by_cases hc : a = i ∧ b = j
  · simp only [hc, and_self, if_true]
    exact ⟨h1, h2, h3, h4, trivial⟩
  · simp only [hc, if_false]
    rcases h with h | h
    · exact h
    · exact absurd h hc

theorem fillCellU_good (rand : Nat → Int) (hr : ∀ t, 0 ≤ rand t) (a b i j : Nat)
    (s : Grids Nat) (h : GoodU s a b ∨ (a = i ∧ b = j)) : GoodU (fillCellU rand i j s) a b := by
  have h1 := Int.tmod_nonneg 1037 (hr s.calls)
  have h2 := Int.tmod_lt_of_pos (rand s.calls) (by norm_num : (0 : Int) < 1037)
  have h3 := Int.tmod_nonneg 1037 (hr (s.calls + 1))
  have h4 := Int.tmod_lt_of_pos (rand (s.calls + 1)) (by norm_num : (0 : Int) < 1037)
  unfold GoodU fillCellU setCell castU32
  by_cases hc : a = i ∧ b = j
  · simp only [hc, and_self, if_true]
    refine ⟨?_, ?_, trivial⟩ <;> omega
  · simp only [hc, if_false]
    rcases h with h | h
    · exact h
    · exact absurd h hc

theorem fillS_good (n : Nat) (rand : Nat → Int) (hr : ∀ t, 0 ≤ rand t) (s : Grids Int)
    (a b : Nat) (ha : a < n) (hb : b < n) : GoodS (fillS n rand s) a b := by
  unfold fillS
  apply forUpTo_establishes (fun s => GoodS s a b) _ (fun i => a = i ∧ b < n) _ n s
  · exact Or.inr ⟨a, ha, rfl, hb⟩
  · intro i s hs
    apply forUpTo_establishes (fun s => GoodS s a b) _ (fun j => a = i ∧ b = j)
      (fun j s h => fillCellS_good rand hr a b i j s h) n s
    rcases hs with hs | ⟨h1, h2⟩
    · exact Or.inl hs
    · exact Or.inr ⟨b, h2, h1, rfl⟩

theorem fillU_good (n : Nat) (rand : Nat → Int) (hr : ∀ t, 0 ≤ rand t) (s : Grids Nat)
    (a b : Nat) (ha : a < n) (hb : b < n) : GoodU (fillU n rand s) a b := by
  unfold fillU
  apply forUpTo_establishes (fun s => GoodU s a b) _ (fun i => a = i ∧ b < n) _ n s
  · exact Or.inr ⟨a, ha, rfl, hb⟩
  · intro i s hs
    apply forUpTo_establishes (fun s => GoodU s a b) _ (fun j => a = i ∧ b = j)
      (fun j s h => fillCellU_good rand hr a b i j s h) n s
    rcases hs with hs | ⟨h1, h2⟩
    · exact Or.inl hs
    · exact Or.inr ⟨b, h2, h1, rfl⟩

/-- C5. Random population: whatever the results of `rand()` (each in
`[0, RAND_MAX]`) and whatever the grids held before, after the fill loop
every cell of `A` and `B` on the `n × n` grid lies in `[0, 10)` in the signed
program and in `[0, 1036]` in the unsigned program, and every cell of `C` is
`0`. -/
theorem fill_ranges (n : Nat) (rand : Nat → Int) (randMax : Int)
    (hr : ∀ t, 0 ≤ rand t ∧ rand t ≤ randMax) (s : Grids Int) (u : Grids Nat)
    (i j : Nat) (hi : i < n) (hj : j < n) :
    ((0 ≤ (fillS n rand s).A i j ∧ (fillS n rand s).A i j < 10) ∧
     (0 ≤ (fillS n rand s).B i j ∧ (fillS n rand s).B i j < 10) ∧
     (fillS n rand s).C i j = 0) ∧
    ((fillU n rand u).A i j ≤ 1036 ∧ (fillU n rand u).B i j ≤ 1036 ∧
     (fillU n rand u).C i j = 0) := by
  have hS := fillS_good n rand (fun t => (hr t).1) s i j hi hj
  have hU := fillU_good n rand (fun t => (hr t).1) u i j hi hj
  unfold GoodS at hS
  unfold GoodU at hU
  exact ⟨⟨⟨hS.1, hS.2.1⟩, ⟨hS.2.2.1, hS.2.2.2.1⟩, hS.2.2.2.2⟩, hU⟩

theorem fill_ranges_witness :
    ((∀ t, 0 ≤ sampleRand t ∧ sampleRand t ≤ 32767) ∧ 1 < 2 ∧ 0 < 2) ∧
    ((0 ≤ (fillS 2 sampleRand ⟨fun _ _ => 77, fun _ _ => 77, fun _ _ => 1, 0⟩).A 1 0 ∧
      (fillS 2 sampleRand ⟨fun _ _ => 77, fun _ _ => 77, fun _ _ => 1, 0⟩).A 1 0 < 10) ∧
     (fillU 2 sampleRand ⟨fun _ _ => 5000, fun _ _ => 5000, fun _ _ => 1, 0⟩).A 1 0 ≤ 1036 ∧
     (fillU 2 sampleRand ⟨fun _ _ => 5000, fun _ _ => 5000, fun _ _ => 1, 0⟩).C 1 0 = 0) := by
  have hr : ∀ t, 0 ≤ sampleRand t ∧ sampleRand t ≤ 32767 := by
    intro t
    unfold sampleRand
    constructor <;> omega
  have h := fill_ranges 2 sampleRand 32767 hr ⟨fun _ _ => 77, fun _ _ => 77, fun _ _ => 1, 0⟩
    ⟨fun _ _ => 5000, fun _ _ => 5000, fun _ _ => 1, 0⟩ 1 0 (by decide) (by decide)
  exact ⟨⟨hr, by decide, by decide⟩, h.1.1, h.2.1, h.2.2.2⟩

/-! ### Size validation -/

theorem readSign_length (l : List Char) : (readSign l).2.length ≤ l.length := by
  cases l with
  | nil => simp [readSign]
  | cons c r =>
    simp only [readSign]
    split_ifs <;> simp

theorem scan_bound (tok : List Char) :
    (scan tok).lead + (scan tok).digits.length ≤ tok.length := by
  have h1 := readSign_length (tok.dropWhile isSpaceC)
  have h2 : (tok.dropWhile isSpaceC).length ≤ tok.length :=
    (List.dropWhile_sublist isSpaceC (l := tok)).length_le
  have h3 := (List.takeWhile_sublist isDigitC (l := (readSign (tok.dropWhile isSpaceC)).2)).length_le
  unfold scan
  simp only
  omega

theorem strtol_consumed_le (tok : List Char) : (strtol tok).consumed ≤ tok.length := by
  have h := scan_bound tok
  unfold strtol
  simp only
  split_ifs <;> simp <;> exact h

theorem charAt_eq_NUL_iff (tok : List Char) (hc : IsCText tok) (k : Nat) :
    charAt tok k = NUL ↔ tok.length ≤ k := by
  unfold charAt
  constructor
  · intro h
    by_contra hlt
    have hk : k < tok.length := by omega
    rw [List.getD_eq_getElem tok NUL hk] at h
    exact hc (h ▸ List.getElem_mem hk)
  · intro h
    exact List.getD_eq_default tok NUL h

theorem castInt_small (v : Int) (h1 : 0 < v) (h2 : v ≤ 100000) : castInt v = v := by
  unfold castInt
  omega

theorem validateSigned_accepts (tok : List Char) (hc : IsCText tok)
    (h : AcceptedBySigned tok) : validateSigned tok = Except.ok (strtol tok).value := by
  obtain ⟨h1, h2, h3, h4, h5⟩ := h
  have hlen : 0 < tok.length := List.length_pos.mpr h2
  have hnul : charAt tok (strtol tok).consumed = NUL :=
    (charAt_eq_NUL_iff tok hc _).mpr (by omega)
  unfold validateSigned
  simp only
  rw [if_neg, if_neg, castInt_small _ h4 h5]
  · omega
  · rintro (h | h | h)
    · rw [h1] at h; exact absurd h (by decide)
    · omega
    · exact h hnul

theorem validateSigned_rejects (tok : List Char) (hc : IsCText tok)
    (h : ¬ AcceptedBySigned tok) : validateSigned tok = Except.error 1 := by
  unfold validateSigned
  simp only
  by_cases hbad : (strtol tok).erange = true ∨ (strtol tok).consumed = 0 ∨
      charAt tok (strtol tok).consumed ≠ NUL
  · rw [if_pos hbad]
  · rw [if_neg hbad]
    by_cases hrange : (strtol tok).value ≤ 0 ∨ (strtol tok).value > 100000
    · rw [if_pos hrange]
    · exfalso
      apply h
      have hle := strtol_consumed_le tok
      have h1 : (strtol tok).erange = false := by
        cases he : (strtol tok).erange
        · rfl
        · exact absurd (Or.inl he) hbad
      have h2 : (strtol tok).consumed ≠ 0 := fun he => hbad (Or.inr (Or.inl he))
      have h3 : charAt tok (strtol tok).consumed = NUL := by
        by_contra he
        exact hbad (Or.inr (Or.inr he))
      have h4 := (charAt_eq_NUL_iff tok hc _).mp h3
      refine ⟨h1, ?_, by omega, by omega, by omega⟩
      intro he
      have hz : tok.length = 0 := by rw [he]; rfl
      omega

/-- C3. Signed program, size validation of a token (the text of `argv[1]`):
the token passes exactly when `strtol` converts the whole non-empty token
without a range error to a value `v` with `0 < v ≤ 100000`; then `n = v` and
the run continues with the allocation for `n`; in every other case the
program returns exit status `1` with no allocation request made. -/
theorem validateSigned_spec (tok : List Char) (hc : IsCText tok) (oracle : Nat → Bool) :
    ((∃ n, validateSigned tok = Except.ok n) ↔ AcceptedBySigned tok) ∧
    (AcceptedBySigned tok →
      validateSigned tok = Except.ok (strtol tok).value ∧
      startSigned tok oracle = allocPhase (strtol tok).value.toNat oracle) ∧
    (¬ AcceptedBySigned tok →
      validateSigned tok = Except.error 1 ∧
      startSigned tok oracle = some (Outcome.exit 1 Heap.init)) := by
  refine ⟨⟨?_, ?_⟩, ?_, ?_⟩
  · rintro ⟨n, hn⟩
    by_contra hna
    rw [validateSigned_rejects tok hc hna] at hn
    cases hn
  · intro h
    exact ⟨_, validateSigned_accepts tok hc h⟩
  · intro h
    have hv := validateSigned_accepts tok hc h
    refine ⟨hv, ?_⟩
    unfold startSigned
    rw [hv]
  · intro h
    have hv := validateSigned_rejects tok hc h
    refine ⟨hv, ?_⟩
    unfold startSigned
    rw [hv]

theorem validateSigned_spec_witness :
    IsCText ['5', '1', '2'] ∧ validateSigned ['5', '1', '2'] = Except.ok 512 ∧
    ((∃ n, validateSigned ['5', '1', '2'] = Except.ok n) ↔ AcceptedBySigned ['5', '1', '2']) :=
  ⟨by unfold IsCText; decide, rfl,
    (validateSigned_spec ['5', '1', '2'] (by unfold IsCText; decide) (fun _ => true)).1⟩

/-- C4 (behaviour of the code). The unsigned program accepts the token
`-18446744073709551615`, a minus sign followed by decimal digits: `strtoul`
reports no range error and returns `1`, the value negated in `unsigned long`,
so validation passes with `n = 1` and the allocation section runs. -/
theorem validateUnsigned_accepts_negative :
    IsNegativeDecimal negativeToken ∧ IsCText negativeToken ∧
    validateUnsigned negativeToken = Except.ok 1 ∧
    ∀ oracle, startUnsigned negativeToken oracle = allocPhase 1 oracle := by
  refine ⟨⟨_, rfl, by decide, by decide⟩, by unfold IsCText; decide, rfl, fun oracle => rfl⟩

/-! ### Allocation and cleanup -/

theorem wf_init : Heap.init.WF := by
  unfold Heap.WF Heap.init
  simp

theorem wf_malloc (oracle : Nat → Bool) (h : Heap) (hw : h.WF) : (malloc oracle h).2.WF := by
  obtain ⟨h1, h2, h3, h4, h5⟩ := hw
  unfold malloc
  by_cases ho : oracle h.next = true
  · rw [if_pos ho]
    refine ⟨h1, ?_, ?_, ?_, ?_⟩
    · refine List.nodup_cons.mpr ⟨fun hm => ?_, h2⟩
      exact absurd (h5 _ hm) (lt_irrefl _)
    · intro b
      simp only [List.mem_cons, Finset.mem_insert, h3 b]
      tauto
    · intro b hb
      simp only [Finset.mem_insert, not_or]
      refine ⟨fun he => ?_, h4 b hb⟩
      have := h5 b ((h3 b).mpr (Or.inr hb))
      omega
    · intro b hb
      simp only [List.mem_cons] at hb
      rcases hb with hb | hb
      · simp only [hb]; omega
      · have := h5 b hb
        simp only
        omega
  · rw [if_neg ho]
    refine ⟨h1, h2, h3, h4, fun b hb => ?_⟩
    have := h5 b hb
    simp only
    omega

theorem granted_malloc (oracle : Nat → Bool) (h : Heap) (hg : Granted oracle h) :
    Granted oracle (malloc oracle h).2 := by
  unfold Granted at *
  unfold malloc
  intro b
  by_cases ho : oracle h.next = true
  · rw [if_pos ho]
    simp only [List.mem_cons, hg b]
    constructor
    · rintro (hb | ⟨hb, hob⟩)
      · rw [hb]; exact ⟨by omega, ho⟩
      · exact ⟨by omega, hob⟩
    · rintro ⟨hb, hob⟩
      by_cases hbn : b = h.next
      · exact Or.inl hbn
      · exact Or.inr ⟨by omega, hob⟩
  · rw [if_neg ho]
    simp only [hg b]
    constructor
    · rintro ⟨hb, hob⟩
      exact ⟨by omega, hob⟩
    · rintro ⟨hb, hob⟩
      by_cases hbn : b = h.next
      · rw [hbn] at hob; exact absurd hob ho
      · exact ⟨by omega, hob⟩

theorem malloc_next (oracle : Nat → Bool) (h : Heap) : (malloc oracle h).2.next = h.next + 1 := by
  unfold malloc
  split_ifs <;> rfl

theorem malloc_live (oracle : Nat → Bool) (h : Heap) (x : Nat) :
    x ∈ (malloc oracle h).2.live ↔ x ∈ h.live ∨ (x = h.next ∧ oracle h.next = true) := by
  unfold malloc
  split_ifs with ho
  · simp only [Finset.mem_insert, ho, and_true]
    tauto
  · simp [ho]

theorem malloc_ptr (oracle : Nat → Bool) (h : Heap) :
    (malloc oracle h).1 = if oracle h.next = true then some h.next else none := by
  unfold malloc
  split_ifs <;> rfl

theorem ptrFor_congr {l1 l2 : Finset Nat} {b : Nat} {p : Ptr} (h : b ∈ l1 ↔ b ∈ l2)
    (hp : PtrFor l1 b p) : PtrFor l2 b p := by
  unfold PtrFor at *
  rw [← h]
  exact hp

theorem free_ptrFor (h : Heap) (b : Nat) (p : Ptr) (hp : PtrFor h.live b p) :
    ∃ h1, free p h = some h1 ∧ h1.live = h.live.erase b ∧
      (h1.next = h.next ∧ h1.obtained = h.obtained) ∧ (h.WF → h1.WF) := by
  rcases hp with ⟨rfl, hb⟩ | ⟨rfl, hb⟩
  · refine ⟨{ next := h.next, live := h.live.erase b, obtained := h.obtained,
              freed := b :: h.freed }, by simp only [free, hb, if_true], rfl, ⟨rfl, rfl⟩, ?_⟩
    rintro ⟨h1, h2, h3, h4, h5⟩
    refine ⟨?_, h2, ?_, ?_, h5⟩
    · exact List.nodup_cons.mpr ⟨fun hm => h4 b hm hb, h1⟩
    · intro x
      simp only [Finset.mem_erase, List.mem_cons, h3 x]
      by_cases hx : x = b
      · subst hx; simp [hb]
      · simp [hx]
    · intro x hx
      simp only [List.mem_cons] at hx
      simp only [Finset.mem_erase, not_and]
      intro hne
      rcases hx with hx | hx
      · exact absurd hx hne
      · exact h4 x hx
  · exact ⟨h, rfl, (Finset.erase_eq_of_not_mem hb).symm, ⟨rfl, rfl⟩, fun hw => hw⟩

theorem free3_ptrFor (h : Heap) (x y z : Nat) (a b c : Ptr) (hxy : x ≠ y) (hxz : x ≠ z)
    (hyz : y ≠ z) (ha : PtrFor h.live x a) (hb : PtrFor h.live y b) (hc : PtrFor h.live z c) :
    ∃ h3, ((free a h).bind fun h1 => (free b h1).bind fun h2 => free c h2) = some h3 ∧
      (∀ v, v ∈ h3.live ↔ v ∈ h.live ∧ v ≠ x ∧ v ≠ y ∧ v ≠ z) ∧
      (h3.next = h.next ∧ h3.obtained = h.obtained) ∧ (h.WF → h3.WF) := by
  obtain ⟨h1, e1, l1, n1, w1⟩ := free_ptrFor h x a ha
  have hb1 : PtrFor h1.live y b :=
    ptrFor_congr (by rw [l1, Finset.mem_erase]; simp [Ne.symm hxy]) hb
  obtain ⟨h2, e2, l2, n2, w2⟩ := free_ptrFor h1 y b hb1
  have hc2 : PtrFor h2.live z c :=
    ptrFor_congr (by rw [l2, l1, Finset.mem_erase, Finset.mem_erase]
                     simp [Ne.symm hxz, Ne.symm hyz]) hc
  obtain ⟨h3, e3, l3, n3, w3⟩ := free_ptrFor h2 z c hc2
  refine ⟨h3, by simp only [e1, e2, e3, Option.some_bind], fun v => ?_,
    ⟨by rw [n3.1, n2.1, n1.1], by rw [n3.2, n2.2, n1.2]⟩, fun hw => w3 (w2 (w1 hw))⟩
  rw [l3, l2, l1, Finset.mem_erase, Finset.mem_erase, Finset.mem_erase]
  tauto

/-- The cleanup loop over the rows `0 .. m - 1` is defined when each of these
rows holds, in every slot, the block of its request or `NULL`; it releases
exactly the blocks named `3 .. 3 + 3 * m - 1`. -/
theorem cleanup_rows (s : Store) (h : Heap) (m : Nat)
    (hs : ∀ r, r < m → ∃ a b c, s.rowA r = some a ∧ s.rowB r = some b ∧ s.rowC r = some c ∧
      PtrFor h.live (3 + 3 * r) a ∧ PtrFor h.live (4 + 3 * r) b ∧ PtrFor h.live (5 + 3 * r) c) :
    ∃ h1, forUpToM m (fun r h => freeRow s r h) h = some h1 ∧
      (∀ x, x ∈ h1.live ↔ x ∈ h.live ∧ ¬ (3 ≤ x ∧ x < 3 + 3 * m)) ∧
      (h1.next = h.next ∧ h1.obtained = h.obtained) ∧ (h.WF → h1.WF) := by
  induction m with
  | zero =>
    refine ⟨h, rfl, fun x => ?_, ⟨rfl, rfl⟩, fun hw => hw⟩
    constructor
    · intro hx; exact ⟨hx, by omega⟩
    · intro hx; exact hx.1
  | succ m ih =>
    obtain ⟨h1, e1, l1, n1, w1⟩ := ih (fun r hr => hs r (by omega))
    obtain ⟨a, b, c, ea, eb, ec, pa, pb, pc⟩ := hs m (by omega)
    have pa1 : PtrFor h1.live (3 + 3 * m) a :=
      ptrFor_congr (by rw [l1]; constructor
                       · intro hx; exact ⟨hx, by omega⟩
                       · intro hx; exact hx.1) pa
    have pb1 : PtrFor h1.live (4 + 3 * m) b :=
      ptrFor_congr (by rw [l1]; constructor
                       · intro hx; exact ⟨hx, by omega⟩
                       · intro hx; exact hx.1) pb
    have pc1 : PtrFor h1.live (5 + 3 * m) c :=
      ptrFor_congr (by rw [l1]; constructor
                       · intro hx; exact ⟨hx, by omega⟩
                       · intro hx; exact hx.1) pc
    obtain ⟨h3, e3, l3, n3, w3⟩ := free3_ptrFor h1 (3 + 3 * m) (4 + 3 * m) (5 + 3 * m) a b c
      (by omega) (by omega) (by omega) pa1 pb1 pc1
    refine ⟨h3, ?_, fun x => ?_, ⟨by rw [n3.1, n1.1], by rw [n3.2, n1.2]⟩,
      fun hw => w3 (w1 hw)⟩
    · rw [forUpToM_succ, e1]
      simp only [Option.some_bind, freeRow, ea, eb, ec]
      exact e3
    · rw [l3, l1]
      constructor
      · rintro ⟨⟨hx, hr⟩, n1, n2, n3⟩
        exact ⟨hx, by omega⟩
      · rintro ⟨hx, hr⟩
        exact ⟨⟨hx, by omega⟩, by omega, by omega, by omega⟩

theorem ptrFor_malloc (oracle : Nat → Bool) (live : Finset Nat) (k : Nat)
    (hk : k ∈ live ↔ oracle k = true) :
    PtrFor live k (if oracle k = true then some k else none) := by
  unfold PtrFor
  by_cases ho : oracle k = true
  · rw [if_pos ho]; exact Or.inl ⟨rfl, hk.mpr ho⟩
  · rw [if_neg ho]; exact Or.inr ⟨rfl, fun hm => ho (hk.mp hm)⟩

/-- Three consecutive requests issued from a state in which exactly the
blocks below `k` are live. -/
theorem three_mallocs (oracle : Nat → Bool) (h : Heap) (k : Nat) (hn : h.next = k)
    (hl : ∀ x, x ∈ h.live ↔ x < k) (hw : h.WF) :
    ∃ a b c h3, (malloc oracle h).1 = a ∧ (malloc oracle (malloc oracle h).2).1 = b ∧
      (malloc oracle (malloc oracle (malloc oracle h).2).2).1 = c ∧
      (malloc oracle (malloc oracle (malloc oracle h).2).2).2 = h3 ∧
      h3.next = k + 3 ∧
      (∀ x, x ∈ h3.live ↔ x < k ∨ (x = k ∧ oracle k = true) ∨
        (x = k + 1 ∧ oracle (k + 1) = true) ∨ (x = k + 2 ∧ oracle (k + 2) = true)) ∧
      a = (if oracle k = true then some k else none) ∧
      b = (if oracle (k + 1) = true then some (k + 1) else none) ∧
      c = (if oracle (k + 2) = true then some (k + 2) else none) ∧ h3.WF ∧
      (Granted oracle h → Granted oracle h3) := by
  have n1 : (malloc oracle h).2.next = k + 1 := by rw [malloc_next, hn]
  have n2 : (malloc oracle (malloc oracle h).2).2.next = k + 2 := by rw [malloc_next, n1]
  have n3 : (malloc oracle (malloc oracle (malloc oracle h).2).2).2.next = k + 3 := by
    rw [malloc_next, n2]
  refine ⟨_, _, _, _, rfl, rfl, rfl, rfl, n3, fun x => ?_, ?_, ?_, ?_,
    wf_malloc _ _ (wf_malloc _ _ (wf_malloc _ _ hw)),
    fun hg => granted_malloc _ _ (granted_malloc _ _ (granted_malloc _ _ hg))⟩
  · rw [malloc_live, malloc_live, malloc_live, n2, n1, hn, hl]
    tauto
  · rw [malloc_ptr, hn]
  · rw [malloc_ptr, n1]
  · rw [malloc_ptr, n2]

theorem setSlot_same (T : Slots) (i : Nat) (p : Ptr) : setSlot T i p i = some p := by
  simp [setSlot]

theorem setSlot_other (T : Slots) (i : Nat) (p : Ptr) (r : Nat) (h : r ≠ i) :
    setSlot T i p r = T r := by
  simp [setSlot, h]

theorem rowLoop_succ (oracle : Nat → Bool) (tA tB tC : Ptr) (m i : Nat) (s : Store) :
    rowLoop oracle tA tB tC (m + 1) i s =
      ((allocRow oracle i s).rowA i).bind fun a => ((allocRow oracle i s).rowB i).bind fun b =>
        ((allocRow oracle i s).rowC i).bind fun c =>
          if a = none ∨ b = none ∨ c = none then rowFailure tA tB tC i (allocRow oracle i s)
          else rowLoop oracle tA tB tC m (i + 1) (allocRow oracle i s) := rfl

/-- Releasing the three top-level arrays when nothing else is live. -/
theorem freeTops_empties (h : Heap) (a b c : Ptr) (hl : ∀ x, x ∈ h.live → x < 3)
    (ha : PtrFor h.live 0 a) (hb : PtrFor h.live 1 b) (hc : PtrFor h.live 2 c) :
    ∃ h1, freeTops a b c h = some h1 ∧ h1.live = ∅ ∧
      (h1.next = h.next ∧ h1.obtained = h.obtained) ∧ (h.WF → h1.WF) := by
  obtain ⟨h3, e3, l3, n3, w3⟩ := free3_ptrFor h 0 1 2 a b c (by omega) (by omega) (by omega)
    ha hb hc
  refine ⟨h3, e3, ?_, n3, w3⟩
  apply Finset.eq_empty_iff_forall_not_mem.mpr
  intro x hx
  rw [l3] at hx
  have := hl x hx.1
  omega

/-- The row loop entered at row `i` with every earlier request granted, when
one of the requests it can still issue is refused: it returns `1` with no
block live, having stopped at the first row `j` with a refused request,
after `3 + 3 * (j + 1)` requests. -/
theorem rowLoop_failure (oracle : Nat → Bool) (m : Nat) :
    ∀ i s, RowInv i s → Granted oracle s.heap →
      (∃ t, 3 + 3 * i ≤ t ∧ t < 3 + 3 * (i + m) ∧ oracle t = false) →
      ∃ h j, rowLoop oracle (some 0) (some 1) (some 2) m i s = some (Outcome.exit 1 h) ∧
        h.live = ∅ ∧ h.WF ∧ Granted oracle h ∧ i ≤ j ∧ j < i + m ∧
        (∀ t, 3 + 3 * i ≤ t → t < 3 + 3 * j → oracle t = true) ∧
        (oracle (3 + 3 * j) = false ∨ oracle (4 + 3 * j) = false ∨
          oracle (5 + 3 * j) = false) ∧
        h.next = 3 + 3 * (j + 1) := by
  induction m with
  | zero =>
    intro i s _ _ ht
    obtain ⟨t, h1, h2, _⟩ := ht
    omega
  | succ m ih =>
    intro i s hinv hgr ht
    obtain ⟨hn, hl, hrows, hw⟩ := hinv
    obtain ⟨a, b, c, h3, ea, eb, ec, e3, n3, l3, va, vb, vc, w3, g3⟩ :=
      three_mallocs oracle s.heap (3 + 3 * i) hn hl hw
    have hs1 : allocRow oracle i s =
        { heap := h3, rowA := setSlot s.rowA i a, rowB := setSlot s.rowB i b,
          rowC := setSlot s.rowC i c } := by
      simp only [allocRow, ea, eb, ec, e3]
    rw [rowLoop_succ, hs1]
    simp only [setSlot_same, Option.some_bind]
    by_cases hall : oracle (3 + 3 * i) = true ∧ oracle (3 + 3 * i + 1) = true ∧
        oracle (3 + 3 * i + 2) = true
    · obtain ⟨o1, o2, o3⟩ := hall
      rw [if_pos o1] at va
      rw [if_pos o2] at vb
      rw [if_pos o3] at vc
      rw [if_neg (by simp [va, vb, vc])]
      have hrec := ih (i + 1)
        { heap := h3, rowA := setSlot s.rowA i a, rowB := setSlot s.rowB i b,
          rowC := setSlot s.rowC i c } ?_ (g3 hgr) ?_
      · obtain ⟨h, j, e, hl0, hw0, hg0, j1, j2, jall, jfail, jn⟩ := hrec
        refine ⟨h, j, e, hl0, hw0, hg0, by omega, by omega, fun t t1 t2 => ?_, jfail, jn⟩
        by_cases hlow : t < 3 + 3 * (i + 1)
        · have hcases : t = 3 + 3 * i ∨ t = 3 + 3 * i + 1 ∨ t = 3 + 3 * i + 2 := by omega
          rcases hcases with h | h | h <;> rw [h] <;> assumption
        · exact jall t (by omega) t2
      · refine ⟨by rw [n3]; ring, fun x => ?_, fun r hr => ?_, w3⟩
        · rw [l3]
          simp only [o1, o2, o3, and_true]
          omega
        · by_cases hri : r = i
          · subst hri
            show setSlot s.rowA r a r = _ ∧ setSlot s.rowB r b r = _ ∧ setSlot s.rowC r c r = _
            rw [setSlot_same, setSlot_same, setSlot_same, va, vb, vc]
            refine ⟨rfl, ?_, ?_⟩
            · congr 2; omega
            · congr 2; omega
          · show setSlot s.rowA i a r = _ ∧ setSlot s.rowB i b r = _ ∧ setSlot s.rowC i c r = _
            rw [setSlot_other _ _ _ _ hri, setSlot_other _ _ _ _ hri, setSlot_other _ _ _ _ hri]
            exact hrows r (by omega)
      · obtain ⟨t, t1, t2, t3⟩ := ht
        refine ⟨t, ?_, by omega, t3⟩
        by_contra hlt
        have hcases : t = 3 + 3 * i ∨ t = 3 + 3 * i + 1 ∨ t = 3 + 3 * i + 2 := by omega
        rcases hcases with h | h | h <;> rw [h] at t3 <;> simp_all
    · have hnull : a = none ∨ b = none ∨ c = none := by
        by_contra hne
        apply hall
        simp only [not_or] at hne
        obtain ⟨na, nb, nc⟩ := hne
        refine ⟨?_, ?_, ?_⟩
        · by_contra ho; rw [if_neg ho] at va; exact na va
        · by_contra ho; rw [if_neg ho] at vb; exact nb vb
        · by_contra ho; rw [if_neg ho] at vc; exact nc vc
      rw [if_pos hnull]
      unfold rowFailure
      simp only
      have hrowsOK : ∀ r, r < i + 1 → ∃ a1 b1 c1,
          setSlot s.rowA i a r = some a1 ∧ setSlot s.rowB i b r = some b1 ∧
          setSlot s.rowC i c r = some c1 ∧
          PtrFor h3.live (3 + 3 * r) a1 ∧ PtrFor h3.live (4 + 3 * r) b1 ∧
          PtrFor h3.live (5 + 3 * r) c1 := by
        intro r hr
        by_cases hri : r = i
        · subst hri
          refine ⟨a, b, c, setSlot_same _ _ _, setSlot_same _ _ _, setSlot_same _ _ _, ?_, ?_, ?_⟩
          · rw [va]
            apply ptrFor_malloc
            rw [l3]
            constructor
            · intro hx; rcases hx with hx | hx | hx | hx
              · omega
              · exact hx.2
              · omega
              · omega
            · intro hx; exact Or.inr (Or.inl ⟨rfl, hx⟩)
          · rw [vb]
            have e : 4 + 3 * r = 3 + 3 * r + 1 := by omega
            rw [e]
            apply ptrFor_malloc
            rw [l3]
            constructor
            · intro hx; rcases hx with hx | hx | hx | hx
              · omega
              · omega
              · exact hx.2
              · omega
            · intro hx; exact Or.inr (Or.inr (Or.inl ⟨rfl, hx⟩))
          · rw [vc]
            have e : 5 + 3 * r = 3 + 3 * r + 2 := by omega
            rw [e]
            apply ptrFor_malloc
            rw [l3]
            constructor
            · intro hx; rcases hx with hx | hx | hx | hx
              · omega
              · omega
              · omega
              · exact hx.2
            · intro hx; exact Or.inr (Or.inr (Or.inr ⟨rfl, hx⟩))
        · obtain ⟨ra, rb, rc⟩ := hrows r (by omega)
          have hlt : r < i := by omega
          refine ⟨_, _, _, by rw [setSlot_other _ _ _ _ hri]; exact ra,
            by rw [setSlot_other _ _ _ _ hri]; exact rb,
            by rw [setSlot_other _ _ _ _ hri]; exact rc,
            Or.inl ⟨rfl, ?_⟩, Or.inl ⟨rfl, ?_⟩, Or.inl ⟨rfl, ?_⟩⟩
          · rw [l3]; left; omega
          · rw [l3]; left; omega
          · rw [l3]; left; omega
      obtain ⟨h1, e1, l1, n1, w1⟩ := cleanup_rows
        { heap := h3, rowA := setSlot s.rowA i a, rowB := setSlot s.rowB i b,
          rowC := setSlot s.rowC i c } h3 (i + 1) hrowsOK
      have hsmall : ∀ x, x ∈ h1.live ↔ x < 3 := by
        intro x
        rw [l1, l3]
        constructor
        · rintro ⟨hx, hr⟩
          rcases hx with hx | hx | hx | hx <;> omega
        · intro hx
          exact ⟨Or.inl (by omega), by omega⟩
      obtain ⟨h2, e2, l2, n2, w2⟩ := freeTops_empties h1 (some 0) (some 1) (some 2)
        (fun x hx => (hsmall x).mp hx)
        (Or.inl ⟨rfl, (hsmall 0).mpr (by omega)⟩) (Or.inl ⟨rfl, (hsmall 1).mpr (by omega)⟩)
        (Or.inl ⟨rfl, (hsmall 2).mpr (by omega)⟩)
      have hfail : oracle (3 + 3 * i) = false ∨ oracle (4 + 3 * i) = false ∨
          oracle (5 + 3 * i) = false := by
        have e4 : 4 + 3 * i = 3 + 3 * i + 1 := by omega
        have e5 : 5 + 3 * i = 3 + 3 * i + 2 := by omega
        rw [e4, e5]
        by_contra hne
        apply hall
        simp only [not_or, Bool.not_eq_false] at hne
        exact hne
      have hg2 : Granted oracle h2 := by
        have hg3 := g3 hgr
        unfold Granted at hg3 ⊢
        intro x
        rw [n2.2, n1.2, n2.1, n1.1]
        exact hg3 x
      refine ⟨h2, i, ?_, l2, w2 (w1 w3), hg2, le_refl i, by omega, fun t t1 t2 => by omega,
        hfail, by rw [n2.1, n1.1, n3]; ring⟩
      rw [e1]
      simp only [Option.some_bind, e2]

/-- The row loop when every request it issues is granted: it runs to the end
and leaves every row holding its three blocks. -/
theorem rowLoop_success (oracle : Nat → Bool) (tA tB tC : Ptr) (m : Nat) :
    ∀ i s, RowInv i s → (∀ t, 3 + 3 * i ≤ t → t < 3 + 3 * (i + m) → oracle t = true) →
      ∃ s1, rowLoop oracle tA tB tC m i s = some (Outcome.ready s1) ∧ RowInv (i + m) s1 := by
  induction m with
  | zero =>
    intro i s hinv _
    exact ⟨s, rfl, hinv⟩
  | succ m ih =>
    intro i s hinv hall
    obtain ⟨hn, hl, hrows, hw⟩ := hinv
    obtain ⟨a, b, c, h3, ea, eb, ec, e3, n3, l3, va, vb, vc, w3, _⟩ :=
      three_mallocs oracle s.heap (3 + 3 * i) hn hl hw
    have hs1 : allocRow oracle i s =
        { heap := h3, rowA := setSlot s.rowA i a, rowB := setSlot s.rowB i b,
          rowC := setSlot s.rowC i c } := by
      simp only [allocRow, ea, eb, ec, e3]
    have o1 := hall (3 + 3 * i) (by omega) (by omega)
    have o2 := hall (3 + 3 * i + 1) (by omega) (by omega)
    have o3 := hall (3 + 3 * i + 2) (by omega) (by omega)
    rw [if_pos o1] at va
    rw [if_pos o2] at vb
    rw [if_pos o3] at vc
    rw [rowLoop_succ, hs1]
    simp only [setSlot_same, Option.some_bind]
    rw [if_neg (by simp [va, vb, vc])]
    have hrec := ih (i + 1)
      { heap := h3, rowA := setSlot s.rowA i a, rowB := setSlot s.rowB i b,
        rowC := setSlot s.rowC i c } ?_ (fun t t1 t2 => hall t (by omega) (by omega))
    · obtain ⟨s1, e, hinv1⟩ := hrec
      have hidx : i + 1 + m = i + (m + 1) := by omega
      rw [hidx] at hinv1
      exact ⟨s1, e, hinv1⟩
    · refine ⟨by rw [n3]; ring, fun x => ?_, fun r hr => ?_, w3⟩
      · rw [l3]
        simp only [o1, o2, o3, and_true]
        omega
      · by_cases hri : r = i
        · subst hri
          show setSlot s.rowA r a r = _ ∧ setSlot s.rowB r b r = _ ∧ setSlot s.rowC r c r = _
          rw [setSlot_same, setSlot_same, setSlot_same, va, vb, vc]
          refine ⟨rfl, ?_, ?_⟩
          · congr 2; omega
          · congr 2; omega
        · show setSlot s.rowA i a r = _ ∧ setSlot s.rowB i b r = _ ∧ setSlot s.rowC i c r = _
          rw [setSlot_other _ _ _ _ hri, setSlot_other _ _ _ _ hri, setSlot_other _ _ _ _ hri]
          exact hrows r (by omega)

/-- When every request is granted the allocation section makes `3 + 3 * n`
requests, keeps all the blocks and hands over to the fill loop with every row
slot assigned. -/
theorem allocPhase_success (n : Nat) (oracle : Nat → Bool)
    (hall : ∀ t, t < 3 + 3 * n → oracle t = true) :
    ∃ s, allocPhase n oracle = some (Outcome.ready s) ∧ RowInv n s := by
  obtain ⟨a, b, c, h3, ea, eb, ec, e3, n3, l3, va, vb, vc, w3, _⟩ :=
    three_mallocs oracle Heap.init 0 rfl (by simp [Heap.init]) wf_init
  simp only [Nat.zero_add] at n3 l3 va vb vc
  have o0 := hall 0 (by omega)
  have o1 := hall 1 (by omega)
  have o2 := hall 2 (by omega)
  rw [if_pos o0] at va
  rw [if_pos o1] at vb
  rw [if_pos o2] at vc
  unfold allocPhase
  simp only [ea, eb, ec, e3]
  rw [if_neg (by simp [va, vb, vc])]
  have hrec := rowLoop_success oracle a b c n 0
    { heap := h3, rowA := fun _ => none, rowB := fun _ => none, rowC := fun _ => none }
    ?_ (fun t _ t2 => hall t (by omega))
  · obtain ⟨s1, e, hinv1⟩ := hrec
    rw [Nat.zero_add] at hinv1
    exact ⟨s1, e, hinv1⟩
  · refine ⟨n3, fun x => ?_, fun r hr => by omega, w3⟩
    show x ∈ h3.live ↔ x < 3 + 3 * 0
    rw [l3]
    simp only [o0, o1, o2, and_true]
    omega

theorem firstFailure_lt (n : Nat) (oracle : Nat → Bool) (i j : Nat)
    (hi : FirstFailureAtRow n oracle i) (hj : FirstFailureAtRow n oracle j) : ¬ i < j := by
  intro hlt
  obtain ⟨_, _, hfail⟩ := hi
  obtain ⟨_, hall, _⟩ := hj
  rcases hfail with h | h | h
  · rw [hall _ (by omega)] at h; exact absurd h (by decide)
  · rw [hall _ (by omega)] at h; exact absurd h (by decide)
  · rw [hall _ (by omega)] at h; exact absurd h (by decide)

theorem firstFailure_unique (n : Nat) (oracle : Nat → Bool) (i j : Nat)
    (hi : FirstFailureAtRow n oracle i) (hj : FirstFailureAtRow n oracle j) : i = j := by
  have h1 := firstFailure_lt n oracle i j hi hj
  have h2 := firstFailure_lt n oracle j i hj hi
  omega

/-- The allocation section under a refused request: defined, exit status `1`,
nothing live, a consistent allocator state in which the blocks handed out are
the granted requests, and the number of requests issued fixed by the place of
the first refusal. -/
theorem allocPhase_failure_state (n : Nat) (oracle : Nat → Bool)
    (hf : SomeRequestFails n oracle) :
    ∃ h, allocPhase n oracle = some (Outcome.exit 1 h) ∧ h.live = ∅ ∧ h.WF ∧
      Granted oracle h ∧
      ((TopFailure oracle ∧ h.next = 3) ∨
        ∃ j, FirstFailureAtRow n oracle j ∧ h.next = 3 + 3 * (j + 1)) := by
  have g0 : Granted oracle Heap.init := by
    intro b
    simp [Heap.init]
  obtain ⟨a, b, c, h3, ea, eb, ec, e3, n3, l3, va, vb, vc, w3, g3⟩ :=
    three_mallocs oracle Heap.init 0 rfl (by simp [Heap.init]) wf_init
  simp only [Nat.zero_add] at n3 l3 va vb vc
  unfold allocPhase
  simp only [ea, eb, ec, e3]
  by_cases hall : oracle 0 = true ∧ oracle 1 = true ∧ oracle 2 = true
  · obtain ⟨o0, o1, o2⟩ := hall
    rw [if_pos o0] at va
    rw [if_pos o1] at vb
    rw [if_pos o2] at vc
    rw [if_neg (by simp [va, vb, vc]), va, vb, vc]
    have hrec := rowLoop_failure oracle n 0
      { heap := h3, rowA := fun _ => none, rowB := fun _ => none, rowC := fun _ => none }
      ?_ (g3 g0) ?_
    · obtain ⟨h, j, e, hl0, hw0, hg0, _, j2, jall, jfail, jn⟩ := hrec
      refine ⟨h, e, hl0, hw0, hg0, Or.inr ⟨j, ⟨by omega, fun t ht => ?_, jfail⟩, jn⟩⟩
      by_cases hlow : t < 3
      · have hcases : t = 0 ∨ t = 1 ∨ t = 2 := by omega
        rcases hcases with h | h | h <;> rw [h] <;> assumption
      · exact jall t (by omega) ht
    · refine ⟨n3, fun x => ?_, fun r hr => by omega, w3⟩
      show x ∈ h3.live ↔ x < 3 + 3 * 0
      rw [l3]
      simp only [o0, o1, o2, and_true]
      omega
    · obtain ⟨t, t1, t2⟩ := hf
      refine ⟨t, ?_, by omega, t2⟩
      by_contra hlt
      have hcases : t = 0 ∨ t = 1 ∨ t = 2 := by omega
      rcases hcases with h | h | h <;> rw [h] at t2 <;> simp_all
  · have htop : TopFailure oracle := by
      unfold TopFailure
      by_contra hne
      apply hall
      simp only [not_or, Bool.not_eq_false] at hne
      exact hne
    have hnull : a = none ∨ b = none ∨ c = none := by
      by_contra hne
      apply hall
      simp only [not_or] at hne
      obtain ⟨na, nb, nc⟩ := hne
      refine ⟨?_, ?_, ?_⟩
      · by_contra ho; rw [if_neg ho] at va; exact na va
      · by_contra ho; rw [if_neg ho] at vb; exact nb vb
      · by_contra ho; rw [if_neg ho] at vc; exact nc vc
    rw [if_pos hnull]
    obtain ⟨h1, e1, l1, n1, w1⟩ := freeTops_empties h3 a b c
      (fun x hx => by
        rcases (l3 x).mp hx with hx | hx | hx | hx <;> omega)
      (by rw [va]; apply ptrFor_malloc; rw [l3]; constructor
          · intro hx; rcases hx with hx | hx | hx | hx
            · omega
            · exact hx.2
            · omega
            · omega
          · intro hx; exact Or.inr (Or.inl ⟨rfl, hx⟩))
      (by rw [vb]; apply ptrFor_malloc; rw [l3]; constructor
          · intro hx; rcases hx with hx | hx | hx | hx
            · omega
            · omega
            · exact hx.2
            · omega
          · intro hx; exact Or.inr (Or.inr (Or.inl ⟨rfl, hx⟩)))
      (by rw [vc]; apply ptrFor_malloc; rw [l3]; constructor
          · intro hx; rcases hx with hx | hx | hx | hx
            · omega
            · omega
            · omega
            · exact hx.2
          · intro hx; exact Or.inr (Or.inr (Or.inr ⟨rfl, hx⟩)))
    have hg1 : Granted oracle h1 := by
      have hg3 := g3 g0
      unfold Granted at hg3 ⊢
      intro x
      rw [n1.2, n1.1]
      exact hg3 x
    refine ⟨h1, ?_, l1, w1 w3, hg1, Or.inl ⟨htop, by rw [n1.1, n3]⟩⟩
    rw [e1]
    rfl

/-- C7. Allocation failure in either program, under an allocator that answers
each request with a fresh block or `NULL` and treats `free(NULL)` as a no-op.
Requests are named in program order: `0`, `1`, `2` are the top-level arrays
`A`, `B`, `C`, and `3 + 3 * r`, `4 + 3 * r`, `5 + 3 * r` are `A[r]`, `B[r]`,
`C[r]`. When some request of the allocation section is refused, the section
is defined (it frees only live blocks and reads only assigned row slots),
returns exit status `1`, leaves no block live and has released every block it
obtained exactly once. The refusal is either among the top-level requests,
and then exactly three requests were issued and the blocks freed are the
top-level arrays that were granted; or it is first met at a row `i`, and then
the requests up to row `i` were issued and the blocks freed are the three
top-level arrays, every row block of the rows before `i`, and those of
`A[i]`, `B[i]`, `C[i]` that were granted. -/
theorem allocPhase_failure_cleanup (n : Nat) (oracle : Nat → Bool)
    (hf : SomeRequestFails n oracle) :
    ∃ h, allocPhase n oracle = some (Outcome.exit 1 h) ∧ h.live = ∅ ∧
      h.freed.Nodup ∧ h.freed.Perm h.obtained ∧
      (∀ b, b ∈ h.obtained ↔ b < h.next ∧ oracle b = true) ∧
      (TopFailure oracle ∨ ∃ i, FirstFailureAtRow n oracle i) ∧
      (TopFailure oracle → h.next = 3 ∧ ∀ b, b ∈ h.freed ↔ b < 3 ∧ oracle b = true) ∧
      (∀ i, FirstFailureAtRow n oracle i → h.next = 3 + 3 * (i + 1) ∧
        ∀ b, b ∈ h.freed ↔
          b < 3 + 3 * i ∨
            ((b = 3 + 3 * i ∨ b = 4 + 3 * i ∨ b = 5 + 3 * i) ∧ oracle b = true)) := by
  obtain ⟨h, e, hl, ⟨hd1, hd2, hmem, _, _⟩, hg, hcase⟩ := allocPhase_failure_state n oracle hf
  have hfreed : ∀ b, b ∈ h.freed ↔ b < h.next ∧ oracle b = true := by
    intro b
    rw [← hg b, hmem b, hl]
    simp
  refine ⟨h, e, hl, hd1, (List.perm_ext_iff_of_nodup hd1 hd2).mpr fun b => ?_, hg, ?_, ?_, ?_⟩
  · rw [hmem b, hl]
    simp
  · rcases hcase with ⟨htop, _⟩ | ⟨j, hj, _⟩
    · exact Or.inl htop
    · exact Or.inr ⟨j, hj⟩
  · intro htop
    rcases hcase with ⟨_, hn⟩ | ⟨j, hj, _⟩
    · refine ⟨hn, fun b => ?_⟩
      rw [hfreed b, hn]
    · exfalso
      obtain ⟨_, hall, _⟩ := hj
      rcases htop with h0 | h0 | h0
      · rw [hall 0 (by omega)] at h0; exact absurd h0 (by decide)
      · rw [hall 1 (by omega)] at h0; exact absurd h0 (by decide)
      · rw [hall 2 (by omega)] at h0; exact absurd h0 (by decide)
  · intro i hi
    rcases hcase with ⟨htop, _⟩ | ⟨j, hj, hn⟩
    · exfalso
      obtain ⟨_, hall, _⟩ := hi
      rcases htop with h0 | h0 | h0
      · rw [hall 0 (by omega)] at h0; exact absurd h0 (by decide)
      · rw [hall 1 (by omega)] at h0; exact absurd h0 (by decide)
      · rw [hall 2 (by omega)] at h0; exact absurd h0 (by decide)
    · have hij := firstFailure_unique n oracle i j hi hj
      subst hij
      refine ⟨hn, fun b => ?_⟩
      rw [hfreed b, hn]
      constructor
      · rintro ⟨hb, hob⟩
        by_cases hlow : b < 3 + 3 * i
        · exact Or.inl hlow
        · exact Or.inr ⟨by omega, hob⟩
      · rintro (hb | ⟨hb, hob⟩)
        · exact ⟨by omega, hi.2.1 b hb⟩
        · exact ⟨by omega, hob⟩

theorem allocPhase_failure_cleanup_witness :
    SomeRequestFails 2 (fun t => t != 7) ∧
    ∃ h, allocPhase 2 (fun t => t != 7) = some (Outcome.exit 1 h) ∧ h.live = ∅ ∧
      h.freed.Nodup ∧ h.next = 9 ∧
      ∀ b, b ∈ h.freed ↔ b < 6 ∨ ((b = 6 ∨ b = 7 ∨ b = 8) ∧ (b != 7) = true) := by
  have hrow : FirstFailureAtRow 2 (fun t => t != 7) 1 :=
    ⟨by decide, fun t ht => by interval_cases t <;> rfl, Or.inr (Or.inl rfl)⟩
  obtain ⟨h, e, hl, hd, _, _, _, _, hi⟩ :=
    allocPhase_failure_cleanup 2 (fun t => t != 7) ⟨7, by decide, rfl⟩
  exact ⟨⟨7, by decide, rfl⟩, h, e, hl, hd, (hi 1 hrow).1, (hi 1 hrow).2⟩

end MatMul
